import Mathlib

/-!
# PIVOT / UNPIVOT statement transformation

A shallow embedding of `src/parser/transform/statement/transform_pivot_stmt.cpp`
(namespace `duckdb`, class `Transformer`) together with the properties of the
pivot rewriting that the specification states about it.

Conventions of the embedding

* A `unique_ptr<T>` that may be null is an `Option T`; a `unique_ptr` that has been
  moved from is `none`.
* `Copy()` is a deep value copy, hence the identity on values.
* `idx_t` values are natural numbers: they are sizes of, and positions in, vectors
  held in memory, so the 64 bit bound is never reached.
* A member function that reads or writes the transformer takes the scope chain as an
  argument and returns the new chain; an exception is an `Except.error` paired with
  the chain as it stood when the exception was thrown.
-/

namespace duckdb

/-! ## Parse tree produced by the grammar (consumed as an interface) -/

/-- A raw parse-tree node of the grammar. -/
inductive PGNode where
  | leaf (val : String)
  | node (kind : String) (args : List PGNode)

/-- A non-null `PGList *`: the empty list of the grammar is the null pointer, so a list
that exists has a first cell. -/
structure PGList where
  head : PGNode
  tail : List PGNode

/-- The fields of `PGPivotStmt` read by the transform. -/
structure PGPivotStmt where
  source : PGNode
  aggrs : Option PGList
  unpivots : Option PGList
  columns : PGList
  groups : Option PGList

/-- The `WITH` clause of a statement. -/
structure PGWithClause where
  ctes : List PGNode
  recursive : Bool

/-- The fields of `PGSelectStmt` read by the transform. -/
structure PGSelectStmt where
  pivot : PGPivotStmt
  withClause : Option PGWithClause

/-! ## Abstract syntax tree -/

inductive LogicalType where
  | INVALID
  | SQLNULL
  | BOOLEAN
  | INTEGER
  | BIGINT
  | DOUBLE
  | VARCHAR
  deriving DecidableEq

inductive OrderType where
  | INVALID
  | ORDER_DEFAULT
  | ASCENDING
  | DESCENDING
  deriving DecidableEq

inductive OrderByNullType where
  | INVALID
  | ORDER_DEFAULT
  | NULLS_FIRST
  | NULLS_LAST
  deriving DecidableEq

inductive OnCreateConflict where
  | ERROR_ON_CONFLICT
  | IGNORE_ON_CONFLICT
  | REPLACE_ON_CONFLICT
  | ALTER_ON_CONFLICT
  deriving DecidableEq

/-- Parsed expressions. `ColumnRefExpression(string)` builds a reference with the one
name; `StarExpression()` has the empty relation name (an unqualified star). -/
inductive ParsedExpression where
  | ColumnRefExpression (column_names : List String)
  | CastExpression (cast_type : LogicalType) (child : ParsedExpression)
  | StarExpression (relation_name : String)
  | ConstantExpression (value : String)
  | FunctionExpression (function_name : String) (children : List ParsedExpression)

/-- One entry of an explicit `IN (...)` list of a pivot column. -/
structure PivotColumnEntry where
  values : List String
  alias_ : String

/-- A pivot column: `names`, the explicit `entries`, and the enum name `pivot_enum`. -/
structure PivotColumn where
  names : List String
  entries : List PivotColumnEntry
  pivot_enum : String

structure OrderByNode where
  type : OrderType
  null_order : OrderByNullType
  expression : ParsedExpression

inductive ResultModifier where
  | OrderModifier (orders : List OrderByNode)
  | LimitModifier (limit : Option ParsedExpression) (offset : Option ParsedExpression)
  | DistinctModifier (distinct_on_targets : List ParsedExpression)

mutual
/-- Table references: a base table, a subquery, or a pivot reference. -/
inductive TableRef where
  | BaseTableRef (table_name : String)
  | SubqueryRef (subquery : SelectNode) (alias_ : String)
  | PivotRef (source : TableRef) (aggregates : List ParsedExpression)
      (unpivot_names : List String) (groups : List String) (pivots : List PivotColumn)
/-- A select node; `cte_map` maps a CTE name to its defining query. -/
inductive SelectNode where
  | mk (cte_map : List (String × SelectNode)) (select_list : List ParsedExpression)
      (from_table : Option TableRef) (modifiers : List ResultModifier)
end

/-- A map from CTE names to their definitions, kept in insertion order. -/
abbrev CommonTableExpressionMap := List (String × SelectNode)

/-- The transform returns its select node as a `QueryNode`. -/
abbrev QueryNode := SelectNode

def SelectNode.cte_map : SelectNode → CommonTableExpressionMap
  | .mk cte_map _ _ _ => cte_map

def SelectNode.select_list : SelectNode → List ParsedExpression
  | .mk _ select_list _ _ => select_list

def SelectNode.from_table : SelectNode → Option TableRef
  | .mk _ _ from_table _ => from_table

def SelectNode.modifiers : SelectNode → List ResultModifier
  | .mk _ _ _ modifiers => modifiers

structure SelectStatement where
  node : QueryNode

/-- The fields of `CreateTypeInfo` (with those of its base `CreateInfo`) that the
transform sets. -/
structure CreateTypeInfo where
  temporary : Bool
  internal : Bool
  catalog : String
  schema : String
  name : String
  on_conflict : OnCreateConflict
  query : Option SelectStatement
  type : LogicalType

inductive SQLStatement where
  | SelectStatement (stmt : SelectStatement)
  | CreateStatement (info : CreateTypeInfo)
  | MultiStatement (statements : List SQLStatement)

/-- The constant `INVALID_CATALOG`: the catalog is not set. -/
def INVALID_CATALOG : String := ""

/-- The constant `INVALID_SCHEMA`: the schema is not set. -/
def INVALID_SCHEMA : String := ""

/-! ## Transformer state -/

/-- A pending enum creation: `CreatePivotEntry`. The select node `base` is the one the
transform has just built, so it is held by value. -/
structure CreatePivotEntry where
  enum_name : String
  base : SelectNode
  column_name : String

/-- A transformer scope with the chain of its parents. `parent` is null exactly for
`root`. Every scope has its own `pivot_entries` vector (a vector of owning pointers,
so a slot is `none` once its entry has been moved out) and its own CTE map. -/
inductive Transformer where
  | root (pivot_entries : List (Option CreatePivotEntry)) (local_cte_map : CommonTableExpressionMap)
  | child (parent : Transformer) (pivot_entries : List (Option CreatePivotEntry))
      (local_cte_map : CommonTableExpressionMap)

inductive Exception where
  | InternalException (msg : String)
  | ParserException (msg : String)
  deriving DecidableEq

/-- The outcome of a member function: value or exception, and the scope chain after. -/
abbrev Result (α : Type) := Except Exception α × Transformer

/-- The member function `Transformer::AddPivotEntry`: a scope with a parent forwards to
it; the root appends the new entry to its `pivot_entries`. -/
def AddPivotEntry : Transformer → String → SelectNode → String → Transformer
  | .child parent pivot_entries local_cte_map, enum_name, base, column_name =>
    .child (AddPivotEntry parent enum_name base column_name) pivot_entries local_cte_map
  | .root pivot_entries local_cte_map, enum_name, base, column_name =>
    let result : CreatePivotEntry :=
      { enum_name := enum_name, base := base, column_name := column_name }
    .root (pivot_entries ++ [some result]) local_cte_map

/-- The member function `Transformer::HasPivotEntries`. -/
def HasPivotEntries : Transformer → Bool
  | .child parent _ _ => HasPivotEntries parent
  | .root pivot_entries _ => !pivot_entries.isEmpty

/-- The member function `Transformer::PivotEntryCount`. -/
def PivotEntryCount : Transformer → Nat
  | .child parent _ _ => PivotEntryCount parent
  | .root pivot_entries _ => pivot_entries.length

/-- The member `pivot_entries` of the scope itself (not of its root). -/
def Transformer.pivot_entries : Transformer → List (Option CreatePivotEntry)
  | .child _ pivot_entries _ => pivot_entries
  | .root pivot_entries _ => pivot_entries

/-- The scope with its own member `pivot_entries` replaced. -/
def Transformer.set_pivot_entries : Transformer → List (Option CreatePivotEntry) → Transformer
  | .child parent _ local_cte_map, entries => .child parent entries local_cte_map
  | .root _ local_cte_map, entries => .root entries local_cte_map

/-- The member function `Transformer::GenerateCreateEnumStmt`. The result is `none` when the function
dereferences a null `entry` (behaviour undefined). -/
def GenerateCreateEnumStmt (entry : Option CreatePivotEntry) : Option SQLStatement :=
  match entry with
  | none => none
  | some entry =>
    -- generate the query that will result in the enum creation
    let select_node := entry.base
    let columnref := ParsedExpression.ColumnRefExpression [entry.column_name]
    let cast := ParsedExpression.CastExpression LogicalType.VARCHAR columnref
    let select_list := select_node.select_list ++ [cast]
    -- order by the column
    let modifier := ResultModifier.OrderModifier
      [{ type := OrderType.ASCENDING, null_order := OrderByNullType.ORDER_DEFAULT,
         expression := columnref }]
    let modifiers := select_node.modifiers ++ [modifier]
    let select : SelectStatement :=
      { node := SelectNode.mk select_node.cte_map select_list select_node.from_table modifiers }
    let info : CreateTypeInfo :=
      { temporary := true
        internal := false
        catalog := INVALID_CATALOG
        schema := INVALID_SCHEMA
        name := entry.enum_name
        on_conflict := OnCreateConflict.REPLACE_ON_CONFLICT
        query := some select
        type := LogicalType.INVALID }
    some (SQLStatement.CreateStatement info)

/-- The loop of `CreatePivotStatement` (lines 88 to 90) over the slots of
`pivot_entries`: the statements generated, and the slots as the loop leaves them, each
one moved out. `none` when a generation dereferences a null slot. -/
def CreatePivotStatement.loop :
    List (Option CreatePivotEntry) → Option (List SQLStatement × List (Option CreatePivotEntry))
  | [] => some ([], [])
  | pivot :: rest =>
    match GenerateCreateEnumStmt pivot with
    | none => none
    | some stmt =>
      match CreatePivotStatement.loop rest with
      | none => none
      | some (stmts, rest_after) => some (stmt :: stmts, none :: rest_after)

/-- The member function `Transformer::CreatePivotStatement`: the multi-statement returned and the scope
after the call; `none` when the behaviour is undefined (a null slot is dereferenced).
The function reads the member `pivot_entries` of the scope it is called on. -/
def CreatePivotStatement (t : Transformer) (statement : SQLStatement) :
    Option (SQLStatement × Transformer) :=
  match CreatePivotStatement.loop t.pivot_entries with
  | none => none
  | some (statements, entries) =>
    some (SQLStatement.MultiStatement (statements ++ [statement]), t.set_pivot_entries entries)

/-- One step of the merge of `collect_visible_ctes`: an entry is added unless its name
is already present. -/
def mergeCTEs (local_cte_map : CommonTableExpressionMap) (cte_map : CommonTableExpressionMap) :
    CommonTableExpressionMap :=
  local_cte_map.foldl
    (fun acc entry => if acc.any (fun found => found.1 == entry.1) then acc else acc ++ [entry])
    cte_map

/-- Modelled from the spec: `collect_visible_ctes(out_map)`, the member
`Transformer::ExtractCTEsRecursive`, whose body is not in this file. It walks from the
current scope outward to the root, merging each level's local CTE map into the map
given, an entry of a closer scope shadowing an entry of the same name further out. -/
def ExtractCTEsRecursive : Transformer → CommonTableExpressionMap → CommonTableExpressionMap
  | .child parent _ local_cte_map, cte_map =>
    ExtractCTEsRecursive parent (mergeCTEs local_cte_map cte_map)
  | .root _ local_cte_map, cte_map => mergeCTEs local_cte_map cte_map

/-- The transforms of the surrounding framework that `TransformPivotStatement` calls
and whose bodies are not in this file. Each is a member function of the transformer:
it may throw, and it may change the scope chain (a nested PIVOT registers its entries
while its enclosing node is transformed). `TransformCTE` and `TransformExpressionList`
fill a container that is empty at the call, and are given here as returning it. -/
structure Delegates where
  TransformTableRefNode : PGNode → Transformer → Result TableRef
  TransformPivotList : PGList → Transformer → Result (List PivotColumn)
  TransformCTE : PGWithClause → Transformer → Result CommonTableExpressionMap
  TransformExpressionList : PGList → Transformer → Result (List ParsedExpression)
  TransformStringList : PGList → List String

/-- The library function `std::to_string` on an `idx_t`: the decimal representation. -/
def to_string (n : Nat) : String := Nat.repr n

/-- Lines 100 to 108 of `TransformPivotStatement`: the source and the column list are
transformed and the select node is created, with the CTEs of the WITH clause if there
is one. -/
def TransformPivotStatement.inputs (d : Delegates) (stmt : PGSelectStmt) (t : Transformer) :
    Result (TableRef × List PivotColumn × SelectNode) :=
  let pivot := stmt.pivot
  match d.TransformTableRefNode pivot.source t with
  | (.error e, t) => (.error e, t)
  | (.ok source, t) =>
    match d.TransformPivotList pivot.columns t with
    | (.error e, t) => (.error e, t)
    | (.ok columns, t) =>
      -- handle the CTEs
      match stmt.withClause with
      | none => (.ok (source, columns, SelectNode.mk [] [] none []), t)
      | some withClause =>
        match d.TransformCTE withClause t with
        | (.error e, t) => (.error e, t)
        | (.ok cte_map, t) => (.ok (source, columns, SelectNode.mk cte_map [] none []), t)

/-- Lines 112 to 127 of `TransformPivotStatement`: the loop over the columns, here from
position `c` on, generating a CREATE TYPE entry for each column that has no IN list.
Returns the columns as the loop leaves them. -/
def TransformPivotStatement.loop (pivot_idx : Nat) (source : TableRef) :
    Nat → List PivotColumn → Transformer → Result (List PivotColumn)
  | _, [], t => (.ok [], t)
  | c, col :: rest, t =>
    if col.pivot_enum != "" || !col.entries.isEmpty then
      match TransformPivotStatement.loop pivot_idx source (c + 1) rest t with
      | (.error e, t) => (.error e, t)
      | (.ok rest, t) => (.ok (col :: rest), t)
    else
      match col.names with
      | [name] =>
        let enum_name := "__pivot_enum_" ++ to_string pivot_idx ++ "_" ++ to_string c
        let new_select := SelectNode.mk (ExtractCTEsRecursive t []) [] (some source) []
        let t := AddPivotEntry t enum_name new_select name
        let col := { col with pivot_enum := enum_name }
        match TransformPivotStatement.loop pivot_idx source (c + 1) rest t with
        | (.error e, t) => (.error e, t)
        | (.ok rest, t) => (.ok (col :: rest), t)
      | _ =>
        -- col.names.size() != 1
        (.error (.InternalException "PIVOT statement with multiple names in pivot entry!?"), t)

/-- Lines 129 to 147 of `TransformPivotStatement`: the actual query, including the
pivot. -/
def TransformPivotStatement.query (d : Delegates) (pivot : PGPivotStmt) (source : TableRef)
    (select_node : SelectNode) (columns : List PivotColumn) (t : Transformer) :
    Result QueryNode :=
  let select_list := select_node.select_list ++ [ParsedExpression.StarExpression ""]
  let filled : Result (List ParsedExpression × List String) :=
    match pivot.aggrs with
    | some aggrs =>
      match d.TransformExpressionList aggrs t with
      | (.error e, t) => (.error e, t)
      | (.ok aggregates, t) => (.ok (aggregates, []), t)
    | none =>
      match pivot.unpivots with
      | none => (.error (.InternalException "No unpivots and no aggrs"), t)
      | some unpivots => (.ok ([], d.TransformStringList unpivots), t)
  match filled with
  | (.error e, t) => (.error e, t)
  | (.ok (aggregates, unpivot_names), t) =>
    let groups :=
      match pivot.groups with
      | some groups => d.TransformStringList groups
      | none => []
    let pivot_ref := TableRef.PivotRef source aggregates unpivot_names groups columns
    (.ok (SelectNode.mk select_node.cte_map select_list (some pivot_ref) select_node.modifiers), t)

/-- The member function `Transformer::TransformPivotStatement`. -/
def TransformPivotStatement (d : Delegates) (stmt : PGSelectStmt) (t : Transformer) :
    Result QueryNode :=
  match TransformPivotStatement.inputs d stmt t with
  | (.error e, t) => (.error e, t)
  | (.ok (source, columns, select_node), t) =>
    -- generate CREATE TYPE statements for each of the columns that do not have an IN list
    let pivot_idx := PivotEntryCount t
    match TransformPivotStatement.loop pivot_idx source 0 columns t with
    | (.error e, t) => (.error e, t)
    | (.ok columns, t) =>
      -- generate the actual query, including the pivot
      TransformPivotStatement.query d stmt.pivot source select_node columns t

/-! ## A plain instance of the delegated transforms

Used to run the transform on concrete clauses. A leaf is a name; there are no nested
scopes, so these transforms leave the scope chain as it is. -/

/-- The text of a leaf. -/
def plainText : PGNode → String
  | .leaf val => val
  | .node kind _ => kind

/-- A leaf is a column reference, a node is a function call on its arguments. -/
def plainExpression : PGNode → ParsedExpression
  | .leaf val => .ColumnRefExpression [val]
  | .node kind args =>
    .FunctionExpression kind
      (args.map fun arg => ParsedExpression.ColumnRefExpression [plainText arg])

/-- A leaf `a` is the column `a` without an IN list; `IN(a, v1, ..)` is the column `a`
with the IN list `v1, ..`; `ENUM(a, e)` is the column `a` with the enum `e`; any other
node is a column with the names of its arguments and no IN list. -/
def plainPivotColumn : PGNode → PivotColumn
  | .leaf val => { names := [val], entries := [], pivot_enum := "" }
  | .node kind args =>
    if kind = "IN" then
      { names := (args.take 1).map plainText
        entries := (args.drop 1).map fun v => { values := [plainText v], alias_ := "" }
        pivot_enum := "" }
    else if kind = "ENUM" then
      { names := (args.take 1).map plainText
        entries := []
        pivot_enum := String.join ((args.drop 1).map plainText) }
    else
      { names := args.map plainText, entries := [], pivot_enum := "" }

/-- The plain delegated transforms. -/
def plainDelegates : Delegates where
  TransformTableRefNode := fun n t =>
    match n with
    | .leaf val => (.ok (TableRef.BaseTableRef val), t)
    | .node _ _ => (.error (.ParserException "unsupported table reference"), t)
  TransformPivotList := fun l t => (.ok ((l.head :: l.tail).map plainPivotColumn), t)
  TransformCTE := fun w t =>
    (.ok (w.ctes.map fun n => (plainText n, SelectNode.mk [] [] none [])), t)
  TransformExpressionList := fun l t => (.ok ((l.head :: l.tail).map plainExpression), t)
  TransformStringList := fun l => (l.head :: l.tail).map plainText

/-- The clause `PIVOT t ON a, b USING sum(x)`. -/
def pivotTwoImplicit : PGSelectStmt :=
  { pivot :=
      { source := .leaf "t"
        aggrs := some { head := .node "sum" [.leaf "x"], tail := [] }
        unpivots := none
        columns := { head := .leaf "a", tail := [.leaf "b"] }
        groups := none }
    withClause := none }

/-- The clause `PIVOT t ON status IN ('a', 'b') USING sum(x)`. -/
def pivotExplicit : PGSelectStmt :=
  { pivot :=
      { source := .leaf "t"
        aggrs := some { head := .node "sum" [.leaf "x"], tail := [] }
        unpivots := none
        columns := { head := .node "IN" [.leaf "status", .leaf "a", .leaf "b"], tail := [] }
        groups := none }
    withClause := none }

/-- The clause `PIVOT t ON status USING sum(x)`. -/
def pivotOneImplicit : PGSelectStmt :=
  { pivot :=
      { source := .leaf "t"
        aggrs := some { head := .node "sum" [.leaf "x"], tail := [] }
        unpivots := none
        columns := { head := .leaf "status", tail := [] }
        groups := none }
    withClause := none }

/-! ## Vocabulary of the specification -/

/-- The job queue of the statement: the `pivot_entries` of the root of the chain. -/
def rootEntries : Transformer → List (Option CreatePivotEntry)
  | .child parent _ _ => rootEntries parent
  | .root pivot_entries _ => pivot_entries

/-- The root scope of a chain. -/
def rootScope : Transformer → Transformer
  | .child parent _ _ => rootScope parent
  | .root pivot_entries local_cte_map => .root pivot_entries local_cte_map

/-- The scope with its own CTE map replaced. -/
def Transformer.set_local_cte_map : Transformer → CommonTableExpressionMap → Transformer
  | .child parent pivot_entries _, m => .child parent pivot_entries m
  | .root pivot_entries _, m => .root pivot_entries m

/-- The enum names of the jobs that are in the queue. -/
def enumNames (q : List (Option CreatePivotEntry)) : List String :=
  q.reduceOption.map CreatePivotEntry.enum_name

/-- An implicit column: no explicit entries and no enum name, so that its values have
to be found by a synthesized query. -/
def PivotColumn.implicit (col : PivotColumn) : Bool :=
  col.pivot_enum == "" && col.entries.isEmpty

/-- An implicit column that does not have exactly one name. -/
def PivotColumn.multiName (col : PivotColumn) : Bool :=
  col.implicit && col.names.length != 1

/-- The name `__pivot_enum_<p>_<c>`. -/
def pivotEnumName (p c : Nat) : String :=
  "__pivot_enum_" ++ to_string p ++ "_" ++ to_string c

/-- The positions of the implicit columns of a column list whose first column has
position `c`, in increasing order. -/
def implicitPositions (c : Nat) (columns : List PivotColumn) : List Nat :=
  ((columns.enumFrom c).filter fun x => x.2.implicit).map Prod.fst

/-- The columns before the first implicit column that does not have exactly one name
(all the columns when there is none). -/
def beforeMultiName (columns : List PivotColumn) : List PivotColumn :=
  columns.takeWhile fun col => !col.multiName

/-- The job of the implicit column `col` at position `c` of a clause with index
`pivot_idx`, source `source` and visible CTEs `cte_map`. -/
def columnJob (pivot_idx : Nat) (source : TableRef) (cte_map : CommonTableExpressionMap)
    (c : Nat) (col : PivotColumn) : CreatePivotEntry :=
  { enum_name := pivotEnumName pivot_idx c
    base := SelectNode.mk cte_map [] (some source) []
    column_name := col.names.headD "" }

/-- The jobs of the implicit columns of a column list whose first column has position
`c`, in column order. -/
def columnJobs (pivot_idx : Nat) (source : TableRef) (cte_map : CommonTableExpressionMap)
    (c : Nat) (columns : List PivotColumn) : List CreatePivotEntry :=
  ((columns.enumFrom c).filter fun x => x.2.implicit).map
    fun x => columnJob pivot_idx source cte_map x.1 x.2

/-- The column list with the enum name of each implicit column set. -/
def resolvedColumns (pivot_idx : Nat) (c : Nat) (columns : List PivotColumn) :
    List PivotColumn :=
  (columns.enumFrom c).map fun x =>
    if x.2.implicit then { x.2 with pivot_enum := pivotEnumName pivot_idx x.1 } else x.2

/-- The chain after the jobs have been registered one after the other. -/
def registerAll (t : Transformer) (jobs : List CreatePivotEntry) : Transformer :=
  jobs.foldl (fun t job => AddPivotEntry t job.enum_name job.base job.column_name) t

/-- The pivot columns of a query node whose FROM is a pivot reference. -/
def pivotsOf (node : QueryNode) : Option (List PivotColumn) :=
  match node.from_table with
  | some (.PivotRef _ _ _ _ pivots) => some pivots
  | _ => none

/-- The source of a query node whose FROM is a pivot reference. -/
def pivotSourceOf (node : QueryNode) : Option TableRef :=
  match node.from_table with
  | some (.PivotRef source _ _ _ _) => some source
  | _ => none

/-- Modelled from the spec: the statement sequencer of the outermost statement builder,
whose body is not in this file. If `has_pending_jobs()` is false the final statement is
the rewritten statement verbatim; otherwise the root queue is drained into a
multi-statement by `CreatePivotStatement`. -/
def StatementSequencer (t : Transformer) (statement : SQLStatement) :
    Option (SQLStatement × Transformer) :=
  if HasPivotEntries t then CreatePivotStatement t statement else some (statement, t)

/-- The scope chains that a run of the transformer passes through: scopes are entered
and left, CTE maps change, and `TransformPivotStatement` is called (on any scope, with
success or not) with delegated transforms that themselves do nothing to the chain but
such steps. -/
inductive Step : Transformer → Transformer → Prop where
  | refl (t : Transformer) : Step t t
  | trans {a b c : Transformer} : Step a b → Step b c → Step a c
  | enter (t : Transformer) (entries : List (Option CreatePivotEntry))
      (m : CommonTableExpressionMap) : Step t (.child t entries m)
  | leave (parent : Transformer) (entries : List (Option CreatePivotEntry))
      (m : CommonTableExpressionMap) : Step (.child parent entries m) parent
  | ctes (t : Transformer) (m : CommonTableExpressionMap) : Step t (t.set_local_cte_map m)
  | call (d : Delegates) (stmt : PGSelectStmt) (t : Transformer) :
      (∀ n s, Step s (d.TransformTableRefNode n s).2) →
      (∀ l s, Step s (d.TransformPivotList l s).2) →
      (∀ w s, Step s (d.TransformCTE w s).2) →
      (∀ l s, Step s (d.TransformExpressionList l s).2) →
      Step t (TransformPivotStatement d stmt t).2

/-- The queue invariant behind the uniqueness of names: every slot holds a job, each
job is named `__pivot_enum_<p>_<c>` for a key `(p, c)` of its own with `p` a position of
the queue, and the keys are pairwise different. -/
def QueueKeyed (q : List (Option CreatePivotEntry)) : Prop :=
  ∃ l : List (CreatePivotEntry × (Nat × Nat)),
    q = l.map (fun x => some x.1) ∧
    (∀ x ∈ l, x.1.enum_name = pivotEnumName x.2.1 x.2.2 ∧ x.2.1 < q.length) ∧
    (l.map Prod.snd).Nodup

/-- The big-endian decimal digits of a number, as characters. -/
def decimalDigits (n : Nat) : List Char :=
  if n < 10 then [Nat.digitChar n]
  else decimalDigits (n / 10) ++ [Nat.digitChar (n % 10)]
decreasing_by omega

/-- The number that a list of decimal digit characters stands for. -/
def decimalValue (l : List Char) : Nat :=
  l.foldl (fun acc ch => 10 * acc + (ch.toNat - 48)) 0

/-- The statement `CREATE TYPE enum_name AS (SELECT CAST(col AS VARCHAR) FROM source
ORDER BY col ASC)`, in the form the sequencer emits it: temporary, replacing on
conflict, the query with the CTEs `cte_map`, a select list of the one cast, the FROM
`source` and the one ORDER BY modifier on the column itself, ascending, with the default
null order. -/
def enumDeclaration (enum_name : String) (cte_map : CommonTableExpressionMap)
    (source : TableRef) (col : String) : SQLStatement :=
  SQLStatement.CreateStatement
    { temporary := true
      internal := false
      catalog := INVALID_CATALOG
      schema := INVALID_SCHEMA
      name := enum_name
      on_conflict := OnCreateConflict.REPLACE_ON_CONFLICT
      query := some
        { node := SelectNode.mk cte_map
            [ParsedExpression.CastExpression LogicalType.VARCHAR
              (ParsedExpression.ColumnRefExpression [col])]
            (some source)
            [ResultModifier.OrderModifier
              [{ type := OrderType.ASCENDING
                 null_order := OrderByNullType.ORDER_DEFAULT
                 expression := ParsedExpression.ColumnRefExpression [col] }]] }
      type := LogicalType.INVALID }

/-! ## Concrete clauses and their results -/

/-- The query node returned for `PIVOT t ON a, b USING sum(x)` on an empty queue. -/
def pivotTwoImplicitNode : QueryNode :=
  SelectNode.mk [] [ParsedExpression.StarExpression ""]
    (some (TableRef.PivotRef (TableRef.BaseTableRef "t")
      [ParsedExpression.FunctionExpression "sum" [ParsedExpression.ColumnRefExpression ["x"]]]
      [] []
      [{ names := ["a"], entries := [], pivot_enum := "__pivot_enum_0_0" },
       { names := ["b"], entries := [], pivot_enum := "__pivot_enum_0_1" }]))
    []

/-- The root scope after `PIVOT t ON a, b USING sum(x)` on an empty queue. -/
def pivotTwoImplicitAfter : Transformer :=
  .root
    [some { enum_name := "__pivot_enum_0_0"
            base := SelectNode.mk [] [] (some (TableRef.BaseTableRef "t")) []
            column_name := "a" },
     some { enum_name := "__pivot_enum_0_1"
            base := SelectNode.mk [] [] (some (TableRef.BaseTableRef "t")) []
            column_name := "b" }]
    []

/-- The columns of `PIVOT t ON status IN ('a', 'b') USING sum(x)`. -/
def pivotExplicitColumns : List PivotColumn :=
  [{ names := ["status"]
     entries := [{ values := ["a"], alias_ := "" }, { values := ["b"], alias_ := "" }]
     pivot_enum := "" }]

/-- The query node returned for `PIVOT t ON status IN ('a', 'b') USING sum(x)`. -/
def pivotExplicitNode : QueryNode :=
  SelectNode.mk [] [ParsedExpression.StarExpression ""]
    (some (TableRef.PivotRef (TableRef.BaseTableRef "t")
      [ParsedExpression.FunctionExpression "sum" [ParsedExpression.ColumnRefExpression ["x"]]]
      [] [] pivotExplicitColumns))
    []

/-- The query node returned for `PIVOT t ON status USING sum(x)` on an empty queue. -/
def pivotOneImplicitNode : QueryNode :=
  SelectNode.mk [] [ParsedExpression.StarExpression ""]
    (some (TableRef.PivotRef (TableRef.BaseTableRef "t")
      [ParsedExpression.FunctionExpression "sum" [ParsedExpression.ColumnRefExpression ["x"]]]
      [] []
      [{ names := ["status"], entries := [], pivot_enum := "__pivot_enum_0_0" }]))
    []

/-- The job registered for `PIVOT t ON status USING sum(x)` on an empty queue. -/
def pivotOneImplicitJob : CreatePivotEntry :=
  { enum_name := "__pivot_enum_0_0"
    base := SelectNode.mk [] [] (some (TableRef.BaseTableRef "t")) []
    column_name := "status" }

/-- A clause whose only column is the implicit two-name group `(a, b)`, a shape the
grammar is not meant to produce: `PIVOT t ON (a, b) USING sum(x)`. -/
def pivotMultiName : PGSelectStmt :=
  { pivot :=
      { source := .leaf "t"
        aggrs := some { head := .node "sum" [.leaf "x"], tail := [] }
        unpivots := none
        columns := { head := .node "ROW" [.leaf "a", .leaf "b"], tail := [] }
        groups := none }
    withClause := none }

/-- A clause with neither aggregates nor unpivot names, on the implicit column `a`. -/
def pivotNeither : PGSelectStmt :=
  { pivot :=
      { source := .leaf "t"
        aggrs := none
        unpivots := none
        columns := { head := .leaf "a", tail := [] }
        groups := none }
    withClause := none }

/-- A clause with neither aggregates nor unpivot names, on the implicit two-name group
`(a, b)`. -/
def pivotMultiNameNeither : PGSelectStmt :=
  { pivot :=
      { source := .leaf "t"
        aggrs := none
        unpivots := none
        columns := { head := .node "ROW" [.leaf "a", .leaf "b"], tail := [] }
        groups := none }
    withClause := none }

/-- The root scope after two clauses `PIVOT t ON status USING sum(x)`, one after the
other, starting on an empty queue. -/
def twoClausesAfter : Transformer :=
  (TransformPivotStatement plainDelegates pivotOneImplicit
    (TransformPivotStatement plainDelegates pivotOneImplicit (.root [] [])).2).2

/-! ## Further vocabulary: the parts of a pivot reference, scopes, CTE visibility -/

/-- The aggregates of a query node whose FROM is a pivot reference. -/
def aggregatesOf (node : QueryNode) : Option (List ParsedExpression) :=
  match node.from_table with
  | some (.PivotRef _ aggregates _ _ _) => some aggregates
  | _ => none

/-- The unpivot names of a query node whose FROM is a pivot reference. -/
def unpivotNamesOf (node : QueryNode) : Option (List String) :=
  match node.from_table with
  | some (.PivotRef _ _ unpivot_names _ _) => some unpivot_names
  | _ => none

/-- The groups of a query node whose FROM is a pivot reference. -/
def groupsOf (node : QueryNode) : Option (List String) :=
  match node.from_table with
  | some (.PivotRef _ _ _ groups _) => some groups
  | _ => none

/-- The local `pivot_entries` of the scopes of a chain that are not its root, from the
scope itself outward. -/
def scopeQueues : Transformer → List (List (Option CreatePivotEntry))
  | .child parent pivot_entries _ => pivot_entries :: scopeQueues parent
  | .root _ _ => []

/-- The local CTE maps of the scopes of a chain, from the scope itself out to the
root. -/
def scopeCteMaps : Transformer → List CommonTableExpressionMap
  | .child parent _ local_cte_map => local_cte_map :: scopeCteMaps parent
  | .root _ local_cte_map => [local_cte_map]

/-- The scope that a nested scope returns to when it is left. -/
def Transformer.leave : Transformer → Transformer
  | .child parent _ _ => parent
  | .root pivot_entries local_cte_map => .root pivot_entries local_cte_map

/-- The definition of the CTE `name` that is visible at a scope: the one of the
innermost scope of the chain that defines the name. -/
def visibleCTE : Transformer → String → Option SelectNode
  | .child parent _ local_cte_map, name => (local_cte_map.lookup name).or (visibleCTE parent name)
  | .root _ local_cte_map, name => local_cte_map.lookup name

/-- The enum names of the jobs that were added to the root queue between two states of
the chain. -/
def generatedNames (before after : Transformer) : List String :=
  enumNames ((rootEntries after).drop (rootEntries before).length)

/-! ## Delegated transforms with a nested PIVOT in the source -/

/-- The clause `PIVOT <source> ON <columns> USING sum(y)` that the node
`PIVOT(source, column, ..)` stands for. -/
def nestedClause (args : List PGNode) : PGSelectStmt :=
  { pivot :=
      { source := args.headD (.leaf "")
        aggrs := some { head := .node "sum" [.leaf "y"], tail := [] }
        unpivots := none
        columns := { head := (args.drop 1).headD (.leaf ""), tail := args.drop 2 }
        groups := none }
    withClause := none }

/-- The plain delegated transforms, except that a source `PIVOT(source, column, ..)` is
a subquery holding a PIVOT clause: it is transformed by `TransformPivotStatement` on a
nested scope, which is left afterwards. -/
def nestedDelegates : Delegates where
  TransformTableRefNode := fun n t =>
    match n with
    | .leaf val => (.ok (TableRef.BaseTableRef val), t)
    | .node kind args =>
      if kind = "PIVOT" then
        match TransformPivotStatement plainDelegates (nestedClause args) (.child t [] []) with
        | (.ok node, t) => (.ok (TableRef.SubqueryRef node ""), t.leave)
        | (.error e, t) => (.error e, t.leave)
      else (.error (.ParserException "unsupported table reference"), t)
  TransformPivotList := plainDelegates.TransformPivotList
  TransformCTE := plainDelegates.TransformCTE
  TransformExpressionList := plainDelegates.TransformExpressionList
  TransformStringList := plainDelegates.TransformStringList

/-! ## Further concrete clauses and scopes -/

/-- The clause `PIVOT (PIVOT u ON k USING sum(y)) ON a USING sum(x)`. -/
def pivotNested : PGSelectStmt :=
  { pivot :=
      { source := .node "PIVOT" [.leaf "u", .leaf "k"]
        aggrs := some { head := .node "sum" [.leaf "x"], tail := [] }
        unpivots := none
        columns := { head := .leaf "a", tail := [] }
        groups := none }
    withClause := none }

/-- An UNPIVOT clause on the table `t`: the column `n` with the explicit entries `a` and
`b`, no aggregates, and the unpivot name `v`. -/
def unpivotClause : PGSelectStmt :=
  { pivot :=
      { source := .leaf "t"
        aggrs := none
        unpivots := some { head := .leaf "v", tail := [] }
        columns := { head := .node "IN" [.leaf "n", .leaf "a", .leaf "b"], tail := [] }
        groups := none }
    withClause := none }

/-- The query node returned for `unpivotClause`. -/
def unpivotClauseNode : QueryNode :=
  SelectNode.mk [] [ParsedExpression.StarExpression ""]
    (some (TableRef.PivotRef (TableRef.BaseTableRef "t") [] ["v"] []
      [{ names := ["n"]
         entries := [{ values := ["a"], alias_ := "" }, { values := ["b"], alias_ := "" }]
         pivot_enum := "" }]))
    []

/-- The clause `PIVOT t ON a USING sum(x) GROUP BY g`. -/
def pivotGrouped : PGSelectStmt :=
  { pivot :=
      { source := .leaf "t"
        aggrs := some { head := .node "sum" [.leaf "x"], tail := [] }
        unpivots := none
        columns := { head := .leaf "a", tail := [] }
        groups := some { head := .leaf "g", tail := [] } }
    withClause := none }

/-- The query node returned for `pivotGrouped` on an empty queue. -/
def pivotGroupedNode : QueryNode :=
  SelectNode.mk [] [ParsedExpression.StarExpression ""]
    (some (TableRef.PivotRef (TableRef.BaseTableRef "t")
      [ParsedExpression.FunctionExpression "sum" [ParsedExpression.ColumnRefExpression ["x"]]]
      [] ["g"]
      [{ names := ["a"], entries := [], pivot_enum := "__pivot_enum_0_0" }]))
    []

/-- The clause `PIVOT t ON a, (b, c) USING sum(x)`: an implicit column followed by an
implicit two-name group. -/
def pivotImplicitThenMultiName : PGSelectStmt :=
  { pivot :=
      { source := .leaf "t"
        aggrs := some { head := .node "sum" [.leaf "x"], tail := [] }
        unpivots := none
        columns := { head := .leaf "a", tail := [.node "ROW" [.leaf "b", .leaf "c"]] }
        groups := none }
    withClause := none }

/-- The job of the column `a` of a clause on the table `t` with index 0. -/
def jobA : CreatePivotEntry :=
  { enum_name := "__pivot_enum_0_0"
    base := SelectNode.mk [] [] (some (TableRef.BaseTableRef "t")) []
    column_name := "a" }

/-- A query that stands for the body of a CTE: `SELECT * FROM <name>`. -/
def cteBody (name : String) : SelectNode :=
  SelectNode.mk [] [ParsedExpression.StarExpression ""] (some (TableRef.BaseTableRef name)) []

/-- A nested scope that defines the CTE `c`, inside a root scope that defines the CTEs
`c` and `d`. -/
def scopeWithCTEs : Transformer :=
  .child (.root [] [("c", cteBody "outer"), ("d", cteBody "other")]) [] [("c", cteBody "inner")]

/-- The chain `scopeWithCTEs` after `PIVOT t ON status USING sum(x)`: the job carries the
CTE `c` of the nested scope and the CTE `d` of the root. -/
def scopeWithCTEsAfter : Transformer :=
  .child
    (.root
      [some { enum_name := "__pivot_enum_0_0"
              base := SelectNode.mk [("c", cteBody "inner"), ("d", cteBody "other")] []
                (some (TableRef.BaseTableRef "t")) []
              column_name := "status" }]
      [("c", cteBody "outer"), ("d", cteBody "other")])
    [] [("c", cteBody "inner")]

/-- The query node returned for `PIVOT t ON status USING sum(x)` on a queue of length
one. -/
def pivotOneImplicitNodeAtOne : QueryNode :=
  SelectNode.mk [] [ParsedExpression.StarExpression ""]
    (some (TableRef.PivotRef (TableRef.BaseTableRef "t")
      [ParsedExpression.FunctionExpression "sum" [ParsedExpression.ColumnRefExpression ["x"]]]
      [] []
      [{ names := ["status"], entries := [], pivot_enum := "__pivot_enum_1_0" }]))
    []

/-- The query node returned for `PIVOT u ON k USING sum(y)` on a queue of length one. -/
def pivotOtherNodeAtOne : QueryNode :=
  SelectNode.mk [] [ParsedExpression.StarExpression ""]
    (some (TableRef.PivotRef (TableRef.BaseTableRef "u")
      [ParsedExpression.FunctionExpression "sum" [ParsedExpression.ColumnRefExpression ["y"]]]
      [] []
      [{ names := ["k"], entries := [], pivot_enum := "__pivot_enum_1_0" }]))
    []

/-- The job of the column `k` of the nested clause `PIVOT u ON k USING sum(y)`, with
index 0. -/
def jobK : CreatePivotEntry :=
  { enum_name := "__pivot_enum_0_0"
    base := SelectNode.mk [] [] (some (TableRef.BaseTableRef "u")) []
    column_name := "k" }

/-- The transformed source of `pivotNested`: the subquery holding the nested clause. -/
def pivotNestedSource : TableRef :=
  TableRef.SubqueryRef
    (SelectNode.mk [] [ParsedExpression.StarExpression ""]
      (some (TableRef.PivotRef (TableRef.BaseTableRef "u")
        [ParsedExpression.FunctionExpression "sum" [ParsedExpression.ColumnRefExpression ["y"]]]
        [] []
        [{ names := ["k"], entries := [], pivot_enum := "__pivot_enum_0_0" }]))
      [])
    ""

/-- The query node returned for `pivotNested` on an empty queue. -/
def pivotNestedNode : QueryNode :=
  SelectNode.mk [] [ParsedExpression.StarExpression ""]
    (some (TableRef.PivotRef pivotNestedSource
      [ParsedExpression.FunctionExpression "sum" [ParsedExpression.ColumnRefExpression ["x"]]]
      [] []
      [{ names := ["a"], entries := [], pivot_enum := "__pivot_enum_1_0" }]))
    []

/-- The job of the column `a` of `pivotNested`, with index 1. -/
def jobNestedA : CreatePivotEntry :=
  { enum_name := "__pivot_enum_1_0"
    base := SelectNode.mk [] [] (some pivotNestedSource) []
    column_name := "a" }

/-! ## The scope chain -/

theorem rootEntries_AddPivotEntry (t : Transformer) (enum_name : String) (base : SelectNode)
    (column_name : String) :
    rootEntries (AddPivotEntry t enum_name base column_name) =
      rootEntries t ++ [some { enum_name := enum_name, base := base, column_name := column_name }] := by
  induction t with
  | root entries m => rfl
  | child parent entries m ih => simpa [AddPivotEntry, rootEntries] using ih

theorem ExtractCTEsRecursive_AddPivotEntry (t : Transformer) (enum_name : String)
    (base : SelectNode) (column_name : String) (m : CommonTableExpressionMap) :
    ExtractCTEsRecursive (AddPivotEntry t enum_name base column_name) m =
      ExtractCTEsRecursive t m := by
  induction t generalizing m with
  | root entries lm => rfl
  | child parent entries lm ih => simp [AddPivotEntry, ExtractCTEsRecursive, ih]

theorem PivotEntryCount_eq_length (t : Transformer) :
    PivotEntryCount t = (rootEntries t).length := by
  induction t with
  | root entries m => rfl
  | child parent entries m ih => simpa [PivotEntryCount, rootEntries] using ih

theorem HasPivotEntries_eq (t : Transformer) :
    HasPivotEntries t = !(rootEntries t).isEmpty := by
  induction t with
  | root entries m => rfl
  | child parent entries m ih => simpa [HasPivotEntries, rootEntries] using ih

theorem registerAll_nil (t : Transformer) : registerAll t [] = t := rfl

theorem registerAll_cons (t : Transformer) (job : CreatePivotEntry)
    (jobs : List CreatePivotEntry) :
    registerAll t (job :: jobs) =
      registerAll (AddPivotEntry t job.enum_name job.base job.column_name) jobs := rfl

theorem rootEntries_registerAll (t : Transformer) (jobs : List CreatePivotEntry) :
    rootEntries (registerAll t jobs) = rootEntries t ++ jobs.map some := by
  induction jobs generalizing t with
  | nil => simp [registerAll_nil]
  | cons job jobs ih =>
    rw [registerAll_cons, ih, rootEntries_AddPivotEntry]
    simp

theorem ExtractCTEsRecursive_registerAll (t : Transformer) (jobs : List CreatePivotEntry)
    (m : CommonTableExpressionMap) :
    ExtractCTEsRecursive (registerAll t jobs) m = ExtractCTEsRecursive t m := by
  induction jobs generalizing t with
  | nil => rfl
  | cons job jobs ih => rw [registerAll_cons, ih, ExtractCTEsRecursive_AddPivotEntry]

/-! ## The loop over the columns -/

theorem implicitPositions_nil (c : Nat) : implicitPositions c [] = [] := rfl

theorem implicitPositions_cons (c : Nat) (col : PivotColumn) (rest : List PivotColumn) :
    implicitPositions c (col :: rest) =
      if col.implicit then c :: implicitPositions (c + 1) rest
      else implicitPositions (c + 1) rest := by
  unfold implicitPositions
  by_cases h : col.implicit = true <;> simp [List.enumFrom, List.filter, h]

theorem columnJobs_cons (p : Nat) (source : TableRef) (m : CommonTableExpressionMap) (c : Nat)
    (col : PivotColumn) (rest : List PivotColumn) :
    columnJobs p source m c (col :: rest) =
      if col.implicit then columnJob p source m c col :: columnJobs p source m (c + 1) rest
      else columnJobs p source m (c + 1) rest := by
  unfold columnJobs
  by_cases h : col.implicit = true <;> simp [List.enumFrom, List.filter, h]

theorem resolvedColumns_cons (p c : Nat) (col : PivotColumn) (rest : List PivotColumn) :
    resolvedColumns p c (col :: rest) =
      (if col.implicit then { col with pivot_enum := pivotEnumName p c } else col) ::
        resolvedColumns p (c + 1) rest := by
  simp [resolvedColumns, List.enumFrom]

/-- What the loop does, in full: it registers the jobs of the implicit columns that
come before the first implicit column without exactly one name, in column order; it
throws if there is such a column and otherwise returns the columns with the enum names
of the implicit ones set. -/
theorem loop_eq (p : Nat) (source : TableRef) (columns : List PivotColumn) (c : Nat)
    (t : Transformer) :
    TransformPivotStatement.loop p source c columns t =
      (if columns.any PivotColumn.multiName then
          .error (.InternalException "PIVOT statement with multiple names in pivot entry!?")
        else .ok (resolvedColumns p c columns),
       registerAll t
        (columnJobs p source (ExtractCTEsRecursive t []) c (beforeMultiName columns))) := by
  induction columns generalizing c t with
  | nil => simp [TransformPivotStatement.loop, resolvedColumns, columnJobs, beforeMultiName, registerAll]
  | cons col rest ih =>
    rw [TransformPivotStatement.loop]
    by_cases himp : col.implicit = true
    · have hcond : (col.pivot_enum != "" || !col.entries.isEmpty) = false := by
        simp only [PivotColumn.implicit, Bool.and_eq_true, beq_iff_eq] at himp
        simp [himp.1, himp.2]
      simp only [hcond, Bool.false_eq_true, if_false]
      match hn : col.names with
      | [name] =>
        have hmn : col.multiName = false := by simp [PivotColumn.multiName, himp, hn]
        simp only [ih, ExtractCTEsRecursive_AddPivotEntry]
        simp only [List.any_cons, hmn, Bool.false_or, beforeMultiName, List.takeWhile_cons,
          Bool.not_false, if_true, columnJobs_cons, himp, registerAll_cons, resolvedColumns_cons,
          columnJob, hn, List.headD_cons, pivotEnumName]
        by_cases hany : rest.any PivotColumn.multiName = true <;> simp [hany]
      | [] =>
        have hmn : col.multiName = true := by simp [PivotColumn.multiName, himp, hn]
        simp [hmn, beforeMultiName, columnJobs, registerAll]
      | a :: b :: l =>
        have hmn : col.multiName = true := by simp [PivotColumn.multiName, himp, hn]
        simp [hmn, beforeMultiName, columnJobs, registerAll]
    · have himp' : col.implicit = false := by simpa using himp
      have hcond : (col.pivot_enum != "" || !col.entries.isEmpty) = true := by
        simp only [PivotColumn.implicit] at himp'
        by_cases h1 : col.pivot_enum = ""
        · simp [h1] at himp' ⊢
          simpa using himp'
        · simp [h1]
      have hmn : col.multiName = false := by simp [PivotColumn.multiName, himp']
      simp only [hcond, if_true, ih]
      simp only [List.any_cons, hmn, Bool.false_or, beforeMultiName, List.takeWhile_cons,
        Bool.not_false, if_true, columnJobs_cons, himp', Bool.false_eq_true, if_false,
        resolvedColumns_cons]
      by_cases hany : rest.any PivotColumn.multiName = true <;> simp [hany]

theorem beforeMultiName_eq_self (columns : List PivotColumn)
    (h : columns.any PivotColumn.multiName = false) : beforeMultiName columns = columns := by
  unfold beforeMultiName
  rw [List.takeWhile_eq_self_iff]
  intro col hcol
  have := List.any_eq_false.mp h col hcol
  simpa using this

theorem any_multiName_iff (columns : List PivotColumn) :
    columns.any PivotColumn.multiName = true ↔
      ∃ col ∈ columns, col.entries = [] ∧ col.pivot_enum = "" ∧ col.names.length ≠ 1 := by
  simp only [List.any_eq_true, PivotColumn.multiName, PivotColumn.implicit, Bool.and_eq_true,
    beq_iff_eq, List.isEmpty_iff, bne_iff_ne, ne_eq]
  constructor
  · rintro ⟨col, hmem, ⟨h1, h2⟩, h3⟩
    exact ⟨col, hmem, h2, h1, h3⟩
  · rintro ⟨col, hmem, h2, h1, h3⟩
    exact ⟨col, hmem, ⟨h1, h2⟩, h3⟩

/-! ## `TransformPivotStatement` as a whole -/

/-- The transform, once the source, the columns and the WITH clause are transformed:
the loop throws at the first implicit column without exactly one name, keeping the
jobs registered before it; otherwise all jobs are registered and the query is built
from the resolved columns. -/
theorem TransformPivotStatement_of_inputs (d : Delegates) (stmt : PGSelectStmt)
    (t t0 : Transformer) (source : TableRef) (columns : List PivotColumn)
    (select_node : SelectNode)
    (hin : TransformPivotStatement.inputs d stmt t = (.ok (source, columns, select_node), t0)) :
    TransformPivotStatement d stmt t =
      if columns.any PivotColumn.multiName then
        (.error (.InternalException "PIVOT statement with multiple names in pivot entry!?"),
          registerAll t0 (columnJobs (PivotEntryCount t0) source (ExtractCTEsRecursive t0 []) 0
            (beforeMultiName columns)))
      else
        TransformPivotStatement.query d stmt.pivot source select_node
          (resolvedColumns (PivotEntryCount t0) 0 columns)
          (registerAll t0
            (columnJobs (PivotEntryCount t0) source (ExtractCTEsRecursive t0 []) 0 columns)) := by
  unfold TransformPivotStatement
  simp only [hin, loop_eq]
  by_cases hany : columns.any PivotColumn.multiName = true
  · simp [hany]
  · have hany' : columns.any PivotColumn.multiName = false := by simpa using hany
    simp only [hany', Bool.false_eq_true, if_false, beforeMultiName_eq_self columns hany']

theorem TransformPivotStatement_of_inputs_error (d : Delegates) (stmt : PGSelectStmt)
    (t t0 : Transformer) (e : Exception)
    (hin : TransformPivotStatement.inputs d stmt t = (.error e, t0)) :
    TransformPivotStatement d stmt t = (.error e, t0) := by
  unfold TransformPivotStatement
  simp only [hin]

/-- A transform that returns a query node has transformed its inputs, found no implicit
column without exactly one name, and built the query after the loop. -/
theorem TransformPivotStatement_ok (d : Delegates) (stmt : PGSelectStmt) (t t' : Transformer)
    (node : QueryNode) (h : TransformPivotStatement d stmt t = (.ok node, t')) :
    ∃ source columns select_node t0,
      TransformPivotStatement.inputs d stmt t = (.ok (source, columns, select_node), t0) ∧
      columns.any PivotColumn.multiName = false ∧
      TransformPivotStatement.query d stmt.pivot source select_node
        (resolvedColumns (PivotEntryCount t0) 0 columns)
        (registerAll t0
          (columnJobs (PivotEntryCount t0) source (ExtractCTEsRecursive t0 []) 0 columns)) =
        (.ok node, t') := by
  match hin : TransformPivotStatement.inputs d stmt t with
  | (.error e, t0) =>
    rw [TransformPivotStatement_of_inputs_error d stmt t t0 e hin] at h
    simp at h
  | (.ok (source, columns, select_node), t0) =>
    rw [TransformPivotStatement_of_inputs d stmt t t0 source columns select_node hin] at h
    by_cases hany : columns.any PivotColumn.multiName = true
    · simp [hany] at h
    · have hany' : columns.any PivotColumn.multiName = false := by simpa using hany
      simp only [hany', Bool.false_eq_true, if_false] at h
      exact ⟨source, columns, select_node, t0, rfl, hany', h⟩

/-- The node that the query step returns: the select list of the node given followed by
an unqualified star, and a pivot reference on the source with the columns given. -/
theorem query_ok (d : Delegates) (pivot : PGPivotStmt) (source : TableRef)
    (select_node : SelectNode) (columns : List PivotColumn) (t t' : Transformer)
    (node : QueryNode)
    (h : TransformPivotStatement.query d pivot source select_node columns t = (.ok node, t')) :
    ∃ aggregates unpivot_names groups,
      node = SelectNode.mk select_node.cte_map
        (select_node.select_list ++ [ParsedExpression.StarExpression ""])
        (some (TableRef.PivotRef source aggregates unpivot_names groups columns))
        select_node.modifiers := by
  unfold TransformPivotStatement.query at h
  match ha : pivot.aggrs with
  | some aggrs =>
    simp only [ha] at h
    match hd : d.TransformExpressionList aggrs t with
    | (.error e, t1) => simp [hd] at h
    | (.ok aggregates, t1) =>
      simp only [hd, Prod.mk.injEq, Except.ok.injEq] at h
      exact ⟨_, _, _, h.1.symm⟩
  | none =>
    simp only [ha] at h
    match hu : pivot.unpivots with
    | none => simp [hu] at h
    | some unpivots =>
      simp only [hu, Prod.mk.injEq, Except.ok.injEq] at h
      exact ⟨_, _, _, h.1.symm⟩

theorem implicitPositions_length (c : Nat) (columns : List PivotColumn) :
    (implicitPositions c columns).length = (columns.filter PivotColumn.implicit).length := by
  induction columns generalizing c with
  | nil => rfl
  | cons col rest ih =>
    rw [implicitPositions_cons]
    by_cases h : col.implicit = true <;> simp [h, ih, List.filter]

theorem columnJobs_names (p : Nat) (source : TableRef) (m : CommonTableExpressionMap) (c : Nat)
    (columns : List PivotColumn) :
    (columnJobs p source m c columns).map CreatePivotEntry.enum_name =
      (implicitPositions c columns).map (pivotEnumName p) := by
  induction columns generalizing c with
  | nil => rfl
  | cons col rest ih =>
    rw [implicitPositions_cons, columnJobs_cons]
    by_cases h : col.implicit = true <;> simp [h, ih, columnJob]

theorem columnJobs_length (p : Nat) (source : TableRef) (m : CommonTableExpressionMap) (c : Nat)
    (columns : List PivotColumn) :
    (columnJobs p source m c columns).length = (columns.filter PivotColumn.implicit).length := by
  rw [← implicitPositions_length c, ← List.length_map (columnJobs p source m c columns)
    CreatePivotEntry.enum_name, columnJobs_names, List.length_map]

theorem mem_implicitPositions (c0 : Nat) (columns : List PivotColumn) (c : Nat) :
    c0 + c ∈ implicitPositions c0 columns ↔
      ∃ col, columns[c]? = some col ∧ col.implicit = true := by
  induction columns generalizing c0 c with
  | nil => simp [implicitPositions_nil]
  | cons col rest ih =>
    rw [implicitPositions_cons]
    have hlow : ∀ k, k ∈ implicitPositions (c0 + 1) rest → c0 + 1 ≤ k := by
      intro k hk
      simp only [implicitPositions, List.mem_map, List.mem_filter] at hk
      obtain ⟨x, ⟨hx, -⟩, rfl⟩ := hk
      exact (List.mem_enumFrom hx).1
    cases c with
    | zero =>
      by_cases h : col.implicit = true
      · simp [h]
      · simp only [h, if_false, Nat.add_zero, List.getElem?_cons_zero, Option.some.injEq,
          exists_eq_left', iff_false, Bool.false_eq_true]
        intro hmem
        have := hlow _ hmem
        omega
    | succ c =>
      have hidx : c0 + (c + 1) = c0 + 1 + c := by omega
      by_cases h : col.implicit = true
      · simp only [h, if_true, List.mem_cons, List.getElem?_cons_succ, hidx, ih]
        constructor
        · rintro (h0 | h1)
          · omega
          · exact h1
        · exact fun h1 => Or.inr h1
      · simp only [h, if_false, List.getElem?_cons_succ, hidx, ih, Bool.false_eq_true]

/-! ## C1: one job per implicit column, named by clause index and column position -/

/-- C1. Whenever `TransformPivotStatement` returns a query node, the jobs that its loop
appends to the root queue are as many as the implicit columns of the transformed
column list, and their names, in order, are `__pivot_enum_<p>_<c>` for the positions
`c` of the implicit columns, where `p` is `PivotEntryCount()` read on the chain `t0`
as the delegated transforms leave it, before any job of the clause is registered; `p`
is the length of the root queue at that moment and is the same for all columns. -/
theorem pivot_jobs_named (d : Delegates) (stmt : PGSelectStmt) (t t' : Transformer)
    (node : QueryNode) (h : TransformPivotStatement d stmt t = (.ok node, t')) :
    ∃ source columns select_node t0 t1, ∃ jobs : List CreatePivotEntry,
      TransformPivotStatement.inputs d stmt t = (.ok (source, columns, select_node), t0) ∧
      (TransformPivotStatement.loop (PivotEntryCount t0) source 0 columns t0).2 = t1 ∧
      TransformPivotStatement.query d stmt.pivot source select_node
        (resolvedColumns (PivotEntryCount t0) 0 columns) t1 = (.ok node, t') ∧
      PivotEntryCount t0 = (rootEntries t0).length ∧
      rootEntries t1 = rootEntries t0 ++ jobs.map some ∧
      jobs.length = (columns.filter PivotColumn.implicit).length ∧
      jobs.map CreatePivotEntry.enum_name =
        (implicitPositions 0 columns).map (pivotEnumName (PivotEntryCount t0)) ∧
      ∀ c, c ∈ implicitPositions 0 columns ↔
        ∃ col, columns[c]? = some col ∧ col.entries = [] ∧ col.pivot_enum = "" := by
  obtain ⟨source, columns, select_node, t0, hin, hany, hq⟩ :=
    TransformPivotStatement_ok d stmt t t' node h
  refine ⟨source, columns, select_node, t0, _,
    columnJobs (PivotEntryCount t0) source (ExtractCTEsRecursive t0 []) 0 columns,
    hin, rfl, ?_, PivotEntryCount_eq_length t0, ?_, columnJobs_length _ _ _ _ _,
    columnJobs_names _ _ _ _ _, ?_⟩
  · rw [loop_eq, beforeMultiName_eq_self columns hany]
    exact hq
  · rw [loop_eq, beforeMultiName_eq_self columns hany]
    exact rootEntries_registerAll _ _
  · intro c
    have := mem_implicitPositions 0 columns c
    rw [Nat.zero_add] at this
    rw [this]
    simp only [PivotColumn.implicit, Bool.and_eq_true, beq_iff_eq, List.isEmpty_iff]
    constructor
    · rintro ⟨col, h1, h2, h3⟩
      exact ⟨col, h1, h3, h2⟩
    · rintro ⟨col, h1, h3, h2⟩
      exact ⟨col, h1, h2, h3⟩

/-- C1, witness: `PIVOT t ON a, b USING sum(x)` on an empty queue registers
`__pivot_enum_0_0` and then `__pivot_enum_0_1`. -/
theorem pivot_jobs_named_witness :
    TransformPivotStatement plainDelegates pivotTwoImplicit (.root [] []) =
        (.ok pivotTwoImplicitNode, pivotTwoImplicitAfter) ∧
      enumNames (rootEntries pivotTwoImplicitAfter) = ["__pivot_enum_0_0", "__pivot_enum_0_1"] ∧
      ∃ source columns select_node t0 t1, ∃ jobs : List CreatePivotEntry,
        TransformPivotStatement.inputs plainDelegates pivotTwoImplicit (.root [] []) =
          (.ok (source, columns, select_node), t0) ∧
        (TransformPivotStatement.loop (PivotEntryCount t0) source 0 columns t0).2 = t1 ∧
        TransformPivotStatement.query plainDelegates pivotTwoImplicit.pivot source select_node
          (resolvedColumns (PivotEntryCount t0) 0 columns) t1 =
            (.ok pivotTwoImplicitNode, pivotTwoImplicitAfter) ∧
        PivotEntryCount t0 = (rootEntries t0).length ∧
        rootEntries t1 = rootEntries t0 ++ jobs.map some ∧
        jobs.length = (columns.filter PivotColumn.implicit).length ∧
        jobs.map CreatePivotEntry.enum_name =
          (implicitPositions 0 columns).map (pivotEnumName (PivotEntryCount t0)) ∧
        ∀ c, c ∈ implicitPositions 0 columns ↔
          ∃ col, columns[c]? = some col ∧ col.entries = [] ∧ col.pivot_enum = "" :=
  ⟨rfl, rfl, pivot_jobs_named plainDelegates pivotTwoImplicit (.root [] []) pivotTwoImplicitAfter
    pivotTwoImplicitNode rfl⟩

/-! ## The decimal encoding of the names -/

theorem toDigitsCore_eq_decimalDigits (fuel n : Nat) (ds : List Char) (h : n < fuel) :
    Nat.toDigitsCore 10 fuel n ds = decimalDigits n ++ ds := by
  induction fuel generalizing n ds with
  | zero => omega
  | succ fuel ih =>
    rw [Nat.toDigitsCore, decimalDigits]
    by_cases hn : n < 10
    · have h0 : n / 10 = 0 := by omega
      have hm : n % 10 = n := by omega
      simp [h0, hm, hn]
    · have h0 : n / 10 ≠ 0 := by omega
      have hlt : n / 10 < fuel := by omega
      simp [h0, hn, ih (n / 10) _ hlt]

theorem to_string_data (n : Nat) : (to_string n).data = decimalDigits n := by
  simp [to_string, Nat.repr, Nat.toDigits, List.asString, toDigitsCore_eq_decimalDigits]

theorem digitChar_value (k : Nat) (h : k < 10) : (Nat.digitChar k).toNat - 48 = k := by
  interval_cases k <;> rfl

theorem digitChar_ne_underscore (k : Nat) (h : k < 10) : Nat.digitChar k ≠ '_' := by
  interval_cases k <;> decide

theorem decimalValue_append (l : List Char) (ch : Char) :
    decimalValue (l ++ [ch]) = 10 * decimalValue l + (ch.toNat - 48) := by
  simp [decimalValue, List.foldl_append]

theorem decimalValue_decimalDigits (n : Nat) : decimalValue (decimalDigits n) = n := by
  induction n using Nat.strong_induction_on with
  | _ n ih =>
    rw [decimalDigits]
    by_cases hn : n < 10
    · simp only [hn, if_true]
      simpa [decimalValue] using digitChar_value n hn
    · simp only [hn, if_false]
      rw [decimalValue_append, ih (n / 10) (by omega), digitChar_value (n % 10) (by omega)]
      omega

theorem decimalDigits_no_underscore (n : Nat) : '_' ∉ decimalDigits n := by
  induction n using Nat.strong_induction_on with
  | _ n ih =>
    rw [decimalDigits]
    by_cases hn : n < 10
    · simp only [hn, if_true, List.mem_singleton]
      exact fun h => digitChar_ne_underscore n hn h.symm
    · simp only [hn, if_false, List.mem_append, List.mem_singleton, not_or]
      exact ⟨ih (n / 10) (by omega), fun h => digitChar_ne_underscore (n % 10) (by omega) h.symm⟩

theorem decimalDigits_injective {a b : Nat} (h : decimalDigits a = decimalDigits b) : a = b := by
  have := congrArg decimalValue h
  simpa [decimalValue_decimalDigits] using this

/-- Two lists cut at a separator that occurs in neither head are equal part by part. -/
theorem append_separator_inj {x : Char} :
    ∀ {l₁ l₂ r₁ r₂ : List Char}, x ∉ l₁ → x ∉ l₂ → l₁ ++ x :: r₁ = l₂ ++ x :: r₂ →
      l₁ = l₂ ∧ r₁ = r₂
  | [], [], _, _, _, _, h => by simpa using h
  | [], b :: l₂, _, _, _, h2, h => by
    simp only [List.nil_append, List.cons_append, List.cons.injEq] at h
    exact absurd (h.1 ▸ List.mem_cons_self b l₂) h2
  | a :: l₁, [], _, _, h1, _, h => by
    simp only [List.nil_append, List.cons_append, List.cons.injEq] at h
    exact absurd (h.1 ▸ List.mem_cons_self a l₁) h1
  | a :: l₁, b :: l₂, _, _, h1, h2, h => by
    simp only [List.cons_append, List.cons.injEq] at h
    have := append_separator_inj (fun hx => h1 (List.mem_cons_of_mem a hx))
      (fun hx => h2 (List.mem_cons_of_mem b hx)) h.2
    exact ⟨by rw [h.1, this.1], this.2⟩

theorem pivotEnumName_data (p c : Nat) :
    (pivotEnumName p c).data =
      "__pivot_enum_".data ++ (decimalDigits p ++ '_' :: decimalDigits c) := by
  simp [pivotEnumName, String.data_append, to_string_data]

/-- The name determines the clause index and the column position. -/
theorem pivotEnumName_injective {p c p' c' : Nat}
    (h : pivotEnumName p c = pivotEnumName p' c') : p = p' ∧ c = c' := by
  have hd := congrArg String.data h
  rw [pivotEnumName_data, pivotEnumName_data] at hd
  have hd' := List.append_cancel_left hd
  have := append_separator_inj (decimalDigits_no_underscore p) (decimalDigits_no_underscore p') hd'
  exact ⟨decimalDigits_injective this.1, decimalDigits_injective this.2⟩

theorem pivotEnumName_ne_empty (p c : Nat) : pivotEnumName p c ≠ "" := by
  intro h
  have hd := congrArg String.data h
  rw [pivotEnumName_data] at hd
  simp at hd

/-! ## C2: the names in the queue are pairwise distinct -/

theorem reduceOption_map_some {α β : Type} (f : α → β) (l : List α) :
    (l.map fun x => some (f x)).reduceOption = l.map f := by
  induction l with
  | nil => rfl
  | cons a l ih => simp [List.reduceOption_cons_of_some, ih]

theorem reduceOption_map_none {α β : Type} (l : List α) :
    (l.map fun _ => (none : Option β)).reduceOption = [] := by
  induction l with
  | nil => rfl
  | cons a l ih => simpa [List.reduceOption_cons_of_none] using ih

theorem implicitPositions_nodup (c : Nat) (columns : List PivotColumn) :
    (implicitPositions c columns).Nodup := by
  have hsub : (implicitPositions c columns).Sublist ((columns.enumFrom c).map Prod.fst) :=
    (List.filter_sublist _).map _
  refine List.Nodup.sublist hsub ?_
  rw [List.enumFrom_map_fst]
  exact List.nodup_range' c columns.length

theorem QueueKeyed_nil : QueueKeyed [] := ⟨[], rfl, by simp, by simp⟩

/-- The names of a keyed queue are pairwise distinct and no slot of it is empty. -/
theorem QueueKeyed.nodup {q : List (Option CreatePivotEntry)} (h : QueueKeyed q) :
    (enumNames q).Nodup ∧ ∀ slot ∈ q, slot ≠ none := by
  obtain ⟨l, hq, hl, hnd⟩ := h
  constructor
  · have hnames : enumNames q = (l.map Prod.snd).map fun k => pivotEnumName k.1 k.2 := by
      rw [enumNames, hq, reduceOption_map_some, List.map_map, List.map_map]
      exact List.map_congr_left fun x hx => (hl x hx).1
    rw [hnames]
    refine List.Nodup.map ?_ hnd
    intro a b hab
    have := pivotEnumName_injective hab
    exact Prod.ext this.1 this.2
  · intro slot hslot
    rw [hq] at hslot
    obtain ⟨x, -, rfl⟩ := List.mem_map.mp hslot
    simp

/-- Registering the jobs of a clause whose index is the length of the queue keeps the
queue keyed. -/
theorem QueueKeyed.append_block {q : List (Option CreatePivotEntry)} (h : QueueKeyed q)
    (source : TableRef) (m : CommonTableExpressionMap) (c : Nat) (columns : List PivotColumn) :
    QueueKeyed (q ++ (columnJobs q.length source m c columns).map some) := by
  obtain ⟨l, hq, hl, hnd⟩ := h
  let block := ((columns.enumFrom c).filter fun x => x.2.implicit).map
    fun x => (columnJob q.length source m x.1 x.2, (q.length, x.1))
  have hblock_jobs : block.map (fun x => some x.1) =
      (columnJobs q.length source m c columns).map some := by
    simp [block, columnJobs, List.map_map, Function.comp_def]
  have hblock_keys : block.map Prod.snd =
      (implicitPositions c columns).map fun k => (q.length, k) := by
    simp [block, implicitPositions, List.map_map, Function.comp_def]
  have hblock_len : block.length = (columnJobs q.length source m c columns).length := by
    simp [block, columnJobs]
  refine ⟨l ++ block, ?_, ?_, ?_⟩
  · rw [List.map_append, hblock_jobs, ← hq]
  · intro x hx
    rw [List.mem_append] at hx
    rcases hx with hx | hx
    · refine ⟨(hl x hx).1, ?_⟩
      have := (hl x hx).2
      rw [List.length_append]
      omega
    · have hpos : 0 < block.length := List.length_pos_of_mem hx
      obtain ⟨y, -, rfl⟩ := List.mem_map.mp hx
      refine ⟨rfl, ?_⟩
      rw [List.length_append, List.length_map, ← hblock_len]
      show q.length < q.length + block.length
      omega
  · rw [List.map_append, List.nodup_append]
    refine ⟨hnd, ?_, ?_⟩
    · rw [hblock_keys]
      refine List.Nodup.map ?_ (implicitPositions_nodup c columns)
      intro a b hab
      exact (Prod.mk.inj hab).2
    · intro k hk1 hk2
      obtain ⟨x, hx, rfl⟩ := List.mem_map.mp hk1
      rw [hblock_keys] at hk2
      obtain ⟨k', -, hk'⟩ := List.mem_map.mp hk2
      have h1 := (hl x hx).2
      have h2 : x.2.1 = q.length := by rw [← hk']
      omega

/-- A property of the scope chain that the delegated transforms keep, and that the loop
keeps when its index is the `PivotEntryCount()` of the chain it starts on, is kept by
`TransformPivotStatement`, whether it returns or throws. -/
theorem TransformPivotStatement_preserves (P : Transformer → Prop) (d : Delegates)
    (h1 : ∀ n s, P s → P (d.TransformTableRefNode n s).2)
    (h2 : ∀ l s, P s → P (d.TransformPivotList l s).2)
    (h3 : ∀ w s, P s → P (d.TransformCTE w s).2)
    (h4 : ∀ l s, P s → P (d.TransformExpressionList l s).2)
    (hloop : ∀ source columns s, P s →
      P (TransformPivotStatement.loop (PivotEntryCount s) source 0 columns s).2)
    (stmt : PGSelectStmt) (t : Transformer) (ht : P t) :
    P (TransformPivotStatement d stmt t).2 := by
  have hin : P (TransformPivotStatement.inputs d stmt t).2 := by
    unfold TransformPivotStatement.inputs
    simp only
    have ha := h1 stmt.pivot.source t ht
    split
    · next e ta hr1 => rw [hr1] at ha; exact ha
    · next source ta hr1 =>
      rw [hr1] at ha
      have hb := h2 stmt.pivot.columns ta ha
      split
      · next e tb hr2 => rw [hr2] at hb; exact hb
      · next columns tb hr2 =>
        rw [hr2] at hb
        split
        · exact hb
        · next w hw =>
          have hc := h3 w tb hb
          split
          · next e tc hr3 => rw [hr3] at hc; exact hc
          · next cte_map tc hr3 => rw [hr3] at hc; exact hc
  unfold TransformPivotStatement
  split
  · next e t0 hr => rw [hr] at hin; exact hin
  · next source columns select_node t0 hr =>
    rw [hr] at hin
    have hl := hloop source columns t0 hin
    simp only
    split
    · next e t1 hr' => rw [hr'] at hl; exact hl
    · next columns' t1 hr' =>
      rw [hr'] at hl
      unfold TransformPivotStatement.query
      simp only
      split
      · next e t2 hr'' =>
        split at hr''
        · next aggrs ha =>
          have hd := h4 aggrs t1 hl
          split at hr''
          · next e' t3 hr4 =>
            rw [hr4] at hd
            simp only [Prod.mk.injEq] at hr''
            rw [← hr''.2]; exact hd
          · next aggregates t3 hr4 => simp at hr''
        · split at hr''
          · simp only [Prod.mk.injEq] at hr''
            rw [← hr''.2]; exact hl
          · simp at hr''
      · next aggregates unpivot_names t2 hr'' =>
        split at hr''
        · next aggrs ha =>
          have hd := h4 aggrs t1 hl
          split at hr''
          · next e' t3 hr4 => simp at hr''
          · next aggregates' t3 hr4 =>
            rw [hr4] at hd
            simp only [Prod.mk.injEq] at hr''
            rw [← hr''.2]; exact hd
        · split at hr''
          · simp at hr''
          · simp only [Prod.mk.injEq] at hr''
            rw [← hr''.2]; exact hl

theorem loop_keyed (source : TableRef) (columns : List PivotColumn) (s : Transformer)
    (h : QueueKeyed (rootEntries s)) :
    QueueKeyed
      (rootEntries (TransformPivotStatement.loop (PivotEntryCount s) source 0 columns s).2) := by
  rw [loop_eq]
  simp only [rootEntries_registerAll, PivotEntryCount_eq_length]
  exact h.append_block source _ 0 _

theorem rootEntries_set_local_cte_map (t : Transformer) (m : CommonTableExpressionMap) :
    rootEntries (t.set_local_cte_map m) = rootEntries t := by
  cases t <;> rfl

/-- Every step of a run keeps the queue keyed. -/
theorem Step.keyed {a b : Transformer} (h : Step a b) :
    QueueKeyed (rootEntries a) → QueueKeyed (rootEntries b) := by
  induction h with
  | refl t => exact id
  | trans _ _ ih1 ih2 => exact fun h => ih2 (ih1 h)
  | enter t entries m => exact id
  | leave parent entries m => exact id
  | ctes t m => rw [rootEntries_set_local_cte_map]; exact id
  | call d stmt t _ _ _ _ ih1 ih2 ih3 ih4 =>
    intro ht
    exact TransformPivotStatement_preserves (fun s => QueueKeyed (rootEntries s)) d
      ih1 ih2 ih3 ih4 loop_keyed stmt t ht

theorem plainDelegates_call (stmt : PGSelectStmt) (t : Transformer) :
    Step t (TransformPivotStatement plainDelegates stmt t).2 :=
  Step.call plainDelegates stmt t
    (fun n s => by cases n <;> exact Step.refl s)
    (fun _ s => Step.refl s) (fun _ s => Step.refl s) (fun _ s => Step.refl s)

/-- C2. In every state reached from an empty root queue by a run of the transformer
(calls of `TransformPivotStatement` on the root or on nested scopes, returning or
throwing, with any columns, nested calls made by the delegated transforms included),
no slot of the root queue is empty and the enum names in it are pairwise distinct. The
two facts behind it: the name `__pivot_enum_<p>_<c>` determines `(p, c)`, and the loop
of a clause moves `PivotEntryCount()` up by the number of jobs it registers. -/
theorem enum_names_distinct (t0 t : Transformer) (h0 : rootEntries t0 = [])
    (h : Step t0 t) :
    (enumNames (rootEntries t)).Nodup ∧
      (∀ slot ∈ rootEntries t, slot ≠ none) ∧
      (∀ p c p' c', pivotEnumName p c = pivotEnumName p' c' → p = p' ∧ c = c') ∧
      ∀ source columns s,
        PivotEntryCount (TransformPivotStatement.loop (PivotEntryCount s) source 0 columns s).2 =
          PivotEntryCount s + (implicitPositions 0 (beforeMultiName columns)).length := by
  have hk : QueueKeyed (rootEntries t) := h.keyed (h0 ▸ QueueKeyed_nil)
  refine ⟨hk.nodup.1, hk.nodup.2, fun _ _ _ _ => pivotEnumName_injective, ?_⟩
  intro source columns s
  rw [loop_eq, PivotEntryCount_eq_length, rootEntries_registerAll, List.length_append,
    List.length_map, columnJobs_length, implicitPositions_length, ← PivotEntryCount_eq_length]

/-- C2, witness: two clauses with one implicit column each, one after the other on an
empty queue, register `__pivot_enum_0_0` and `__pivot_enum_1_0`. -/
theorem enum_names_distinct_witness :
    rootEntries (.root [] []) = [] ∧
      Step (.root [] []) twoClausesAfter ∧
      enumNames (rootEntries twoClausesAfter) = ["__pivot_enum_0_0", "__pivot_enum_1_0"] ∧
      ((enumNames (rootEntries twoClausesAfter)).Nodup ∧
        (∀ slot ∈ rootEntries twoClausesAfter, slot ≠ none) ∧
        (∀ p c p' c', pivotEnumName p c = pivotEnumName p' c' → p = p' ∧ c = c') ∧
        ∀ source columns s,
          PivotEntryCount
              (TransformPivotStatement.loop (PivotEntryCount s) source 0 columns s).2 =
            PivotEntryCount s + (implicitPositions 0 (beforeMultiName columns)).length) :=
  ⟨rfl, Step.trans (plainDelegates_call _ _) (plainDelegates_call _ _), rfl,
    enum_names_distinct (.root [] []) twoClausesAfter rfl
      (Step.trans (plainDelegates_call _ _) (plainDelegates_call _ _))⟩

/-! ## C3: a clause of explicit columns registers nothing -/

theorem implicit_eq_false_of_explicit (col : PivotColumn)
    (h : col.entries ≠ [] ∨ col.pivot_enum ≠ "") : col.implicit = false := by
  simp only [PivotColumn.implicit, Bool.and_eq_false_iff, beq_eq_false_iff_ne, ne_eq]
  rcases h with h | h
  · right
    cases hcol : col.entries with
    | nil => exact absurd hcol h
    | cons a l => rfl
  · exact Or.inl h

theorem columnJobs_of_no_implicit (p : Nat) (source : TableRef) (m : CommonTableExpressionMap)
    (c : Nat) (columns : List PivotColumn) (h : ∀ col ∈ columns, col.implicit = false) :
    columnJobs p source m c columns = [] := by
  induction columns generalizing c with
  | nil => rfl
  | cons col rest ih =>
    rw [columnJobs_cons, h col (List.mem_cons_self _ _)]
    simpa using ih (c + 1) fun x hx => h x (List.mem_cons_of_mem _ hx)

theorem resolvedColumns_of_no_implicit (p c : Nat) (columns : List PivotColumn)
    (h : ∀ col ∈ columns, col.implicit = false) : resolvedColumns p c columns = columns := by
  induction columns generalizing c with
  | nil => rfl
  | cons col rest ih =>
    rw [resolvedColumns_cons, h col (List.mem_cons_self _ _),
      ih (c + 1) fun x hx => h x (List.mem_cons_of_mem _ hx)]
    simp

theorem any_multiName_of_no_implicit (columns : List PivotColumn)
    (h : ∀ col ∈ columns, col.implicit = false) : columns.any PivotColumn.multiName = false := by
  rw [List.any_eq_false]
  intro col hcol
  simp [PivotColumn.multiName, h col hcol]

theorem pivotsOf_query_ok (d : Delegates) (pivot : PGPivotStmt) (source : TableRef)
    (select_node : SelectNode) (columns : List PivotColumn) (t t' : Transformer)
    (node : QueryNode)
    (h : TransformPivotStatement.query d pivot source select_node columns t = (.ok node, t')) :
    pivotsOf node = some columns ∧ pivotSourceOf node = some source := by
  obtain ⟨aggregates, unpivot_names, groups, rfl⟩ := query_ok d pivot source select_node columns t t' node h
  exact ⟨rfl, rfl⟩

/-- C3. When every transformed column of the clause has a non-empty explicit entry list
or an enum name already set, the loop of `TransformPivotStatement` registers no job
and leaves the whole scope chain, the root queue with it, as it found it; the transform
is then the query step run on the untouched columns, and the pivot reference of the
node returned carries exactly the transformed columns, in the same order. -/
theorem explicit_columns_register_nothing (d : Delegates) (stmt : PGSelectStmt)
    (t t0 : Transformer) (source : TableRef) (columns : List PivotColumn)
    (select_node : SelectNode)
    (hin : TransformPivotStatement.inputs d stmt t = (.ok (source, columns, select_node), t0))
    (hex : ∀ col ∈ columns, col.entries ≠ [] ∨ col.pivot_enum ≠ "") :
    TransformPivotStatement.loop (PivotEntryCount t0) source 0 columns t0 = (.ok columns, t0) ∧
      TransformPivotStatement d stmt t =
        TransformPivotStatement.query d stmt.pivot source select_node columns t0 ∧
      ∀ node t', TransformPivotStatement d stmt t = (.ok node, t') →
        pivotsOf node = some columns := by
  have hno : ∀ col ∈ columns, col.implicit = false :=
    fun col hcol => implicit_eq_false_of_explicit col (hex col hcol)
  have hany := any_multiName_of_no_implicit columns hno
  have hjobs := columnJobs_of_no_implicit (PivotEntryCount t0) source
    (ExtractCTEsRecursive t0 []) 0 columns hno
  have hres := resolvedColumns_of_no_implicit (PivotEntryCount t0) 0 columns hno
  have hwhole : TransformPivotStatement d stmt t =
      TransformPivotStatement.query d stmt.pivot source select_node columns t0 := by
    rw [TransformPivotStatement_of_inputs d stmt t t0 source columns select_node hin, hany,
      hjobs, hres]
    simp [registerAll_nil]
  refine ⟨?_, hwhole, ?_⟩
  · rw [loop_eq, hany, beforeMultiName_eq_self columns hany, hjobs, hres]
    simp [registerAll_nil]
  · intro node t' h
    rw [hwhole] at h
    exact (pivotsOf_query_ok d stmt.pivot source select_node columns t0 t' node h).1

/-- C3, witness: `PIVOT t ON status IN ('a', 'b') USING sum(x)`. -/
theorem explicit_columns_register_nothing_witness :
    TransformPivotStatement.inputs plainDelegates pivotExplicit (.root [] []) =
        (.ok (TableRef.BaseTableRef "t", pivotExplicitColumns, SelectNode.mk [] [] none []),
          .root [] []) ∧
      (∀ col ∈ pivotExplicitColumns, col.entries ≠ [] ∨ col.pivot_enum ≠ "") ∧
      (TransformPivotStatement.loop (PivotEntryCount (.root [] [])) (TableRef.BaseTableRef "t") 0
          pivotExplicitColumns (.root [] []) = (.ok pivotExplicitColumns, .root [] []) ∧
        TransformPivotStatement plainDelegates pivotExplicit (.root [] []) =
          TransformPivotStatement.query plainDelegates pivotExplicit.pivot
            (TableRef.BaseTableRef "t") (SelectNode.mk [] [] none []) pivotExplicitColumns
            (.root [] []) ∧
        ∀ node t', TransformPivotStatement plainDelegates pivotExplicit (.root [] []) =
            (.ok node, t') → pivotsOf node = some pivotExplicitColumns) :=
  ⟨rfl, by simp [pivotExplicitColumns],
    explicit_columns_register_nothing plainDelegates pivotExplicit (.root [] []) (.root [] [])
      (TableRef.BaseTableRef "t") pivotExplicitColumns (SelectNode.mk [] [] none []) rfl
      (by simp [pivotExplicitColumns])⟩

/-! ## C4 to C6: the statement sequencer -/

/-- The declaration statement of a job: what `GenerateCreateEnumStmt` returns for it. -/
theorem GenerateCreateEnumStmt_some (job : CreatePivotEntry) :
    ∃ stmt, GenerateCreateEnumStmt (some job) = some stmt := ⟨_, rfl⟩

/-- The loop of `CreatePivotStatement` on a queue without empty slot returns: one
statement per slot, generated from it, in order, and every slot is left moved out. -/
theorem CreatePivotStatement_loop_total (q : List (Option CreatePivotEntry))
    (hq : ∀ slot ∈ q, slot ≠ none) :
    ∃ stmts : List SQLStatement,
      CreatePivotStatement.loop q = some (stmts, q.map fun _ => none) ∧
      stmts.map some = q.map GenerateCreateEnumStmt := by
  induction q with
  | nil => exact ⟨[], rfl, rfl⟩
  | cons slot q ih =>
    obtain ⟨stmts, h1, h2⟩ := ih fun x hx => hq x (List.mem_cons_of_mem _ hx)
    cases slot with
    | none => exact absurd rfl (hq none (List.mem_cons_self _ _))
    | some job =>
      obtain ⟨stmt, hs⟩ := GenerateCreateEnumStmt_some job
      refine ⟨stmt :: stmts, ?_, ?_⟩
      · simp only [List.map_cons, CreatePivotStatement.loop, hs, h1]
      · simp only [List.map_cons, hs, h2]

/-- The function `CreatePivotStatement` on a scope whose queue has no empty slot returns the
multi-statement of the generated statements followed by the statement given, and
leaves every slot moved out. -/
theorem CreatePivotStatement_total (r : Transformer) (s : SQLStatement)
    (hq : ∀ slot ∈ r.pivot_entries, slot ≠ none) :
    ∃ stmts : List SQLStatement,
      CreatePivotStatement r s =
        some (SQLStatement.MultiStatement (stmts ++ [s]),
          r.set_pivot_entries (r.pivot_entries.map fun _ => none)) ∧
      stmts.length = r.pivot_entries.length ∧
      ∀ (i : Nat) (slot : Option CreatePivotEntry),
        r.pivot_entries[i]? = some slot → stmts[i]? = GenerateCreateEnumStmt slot := by
  obtain ⟨stmts, h1, h2⟩ := CreatePivotStatement_loop_total r.pivot_entries hq
  have hlen : stmts.length = r.pivot_entries.length := by
    simpa using congrArg List.length h2
  refine ⟨stmts, ?_, hlen, ?_⟩
  · simp only [CreatePivotStatement, h1]
  · intro i slot hi
    have := congrArg (fun l => l[i]?) h2
    simp only [List.getElem?_map, hi, Option.map_some'] at this
    cases hs : stmts[i]? with
    | none => simp [hs] at this
    | some stmt =>
      simp only [hs, Option.map_some', Option.some.injEq] at this
      exact this

/-- C4. For every root queue holding `N` jobs (in particular `N ≥ 1`) and every
rewritten statement `s`, `CreatePivotStatement` returns a multi-statement of length
exactly `N + 1` whose `i`-th element, for `i < N`, is the type declaration generated
from the `i`-th registered job, named with that job's `enum_name`, and whose last
element is `s` itself. -/
theorem CreatePivotStatement_multi (jobs : List CreatePivotEntry)
    (m : CommonTableExpressionMap) (s : SQLStatement) :
    ∃ stmts t',
      CreatePivotStatement (.root (jobs.map some) m) s =
        some (SQLStatement.MultiStatement stmts, t') ∧
      stmts.length = jobs.length + 1 ∧
      (∀ i (hi : i < jobs.length), ∃ info,
        stmts[i]? = some (SQLStatement.CreateStatement info) ∧
        GenerateCreateEnumStmt (some jobs[i]) = some (SQLStatement.CreateStatement info) ∧
        info.name = jobs[i].enum_name) ∧
      stmts[jobs.length]? = some s := by
  have hq : ∀ slot ∈ (Transformer.root (jobs.map some) m).pivot_entries, slot ≠ none := by
    intro slot hslot
    obtain ⟨job, -, rfl⟩ := List.mem_map.mp hslot
    simp
  obtain ⟨stmts, h1, h2, h3⟩ := CreatePivotStatement_total (.root (jobs.map some) m) s hq
  have hlen : stmts.length = jobs.length := by
    simpa [Transformer.pivot_entries] using h2
  refine ⟨stmts ++ [s], _, h1, by simp [hlen], ?_, ?_⟩
  · intro i hi
    have hslot : (Transformer.root (jobs.map some) m).pivot_entries[i]? = some (some jobs[i]) := by
      simp [Transformer.pivot_entries, List.getElem?_map, List.getElem?_eq_getElem hi]
    have hgen := h3 i _ hslot
    refine ⟨_, ?_, rfl, rfl⟩
    rw [List.getElem?_append_left (by omega), hgen]
    rfl
  · rw [← hlen, List.getElem?_append_right (le_refl _)]
    simp

/-- C5. When `HasPivotEntries()` is false the statement sequencer yields the rewritten
statement itself, not wrapped in a multi-statement, and leaves the scope chain as it
is. -/
theorem StatementSequencer_verbatim (t : Transformer) (s : SQLStatement)
    (h : HasPivotEntries t = false) : StatementSequencer t s = some (s, t) := by
  simp [StatementSequencer, h]

/-- C5, witness: the clause with an explicit IN list leaves the queue empty, and its
statement is passed on as it is. -/
theorem StatementSequencer_verbatim_witness :
    HasPivotEntries (TransformPivotStatement plainDelegates pivotExplicit (.root [] [])).2 = false ∧
      StatementSequencer (TransformPivotStatement plainDelegates pivotExplicit (.root [] [])).2
          (SQLStatement.SelectStatement { node := pivotExplicitNode }) =
        some (SQLStatement.SelectStatement { node := pivotExplicitNode },
          (TransformPivotStatement plainDelegates pivotExplicit (.root [] [])).2) :=
  ⟨rfl, StatementSequencer_verbatim _ _ rfl⟩

/-- C6, as stated, fails: after `CreatePivotStatement` has drained a root queue of one
job, the queue is not empty (it holds one moved-out slot), `HasPivotEntries()` is true
and `PivotEntryCount()` is 1; a second drain dereferences the moved-out slot. -/
theorem drain_leaves_queue_nonempty :
    (CreatePivotStatement (.root [some pivotOneImplicitJob] [])
        (SQLStatement.SelectStatement { node := pivotOneImplicitNode })).map Prod.snd =
        some (.root [none] []) ∧
      rootEntries (.root [none] []) ≠ [] ∧
      HasPivotEntries (.root [none] []) = true ∧
      PivotEntryCount (.root [none] []) = 1 ∧
      CreatePivotStatement (.root [none] [])
        (SQLStatement.SelectStatement { node := pivotOneImplicitNode }) = none :=
  ⟨rfl, by simp [rootEntries], rfl, rfl, rfl⟩

/-- C6, amended. Draining is destructive: `CreatePivotStatement` on a root queue of `N`
jobs moves every job out, so that afterwards every slot of the queue is empty and no
job is left in it; the slots themselves stay, so `PivotEntryCount()` is still `N` and
`HasPivotEntries()` is true exactly when `N > 0`. -/
theorem drain_moves_jobs_out (jobs : List CreatePivotEntry) (m : CommonTableExpressionMap)
    (s : SQLStatement) :
    ∃ multi,
      CreatePivotStatement (.root (jobs.map some) m) s =
        some (multi, .root (jobs.map fun _ => none) m) ∧
      (∀ slot ∈ rootEntries (.root (jobs.map fun _ => none) m), slot = none) ∧
      enumNames (rootEntries (.root (jobs.map fun _ => none) m)) = [] ∧
      PivotEntryCount (.root (jobs.map fun _ => none) m) = jobs.length ∧
      (HasPivotEntries (.root (jobs.map fun _ => none) m) = true ↔ 0 < jobs.length) := by
  have hq : ∀ slot ∈ (Transformer.root (jobs.map some) m).pivot_entries, slot ≠ none := by
    intro slot hslot
    obtain ⟨job, -, rfl⟩ := List.mem_map.mp hslot
    simp
  obtain ⟨stmts, h1, -, -⟩ := CreatePivotStatement_total (.root (jobs.map some) m) s hq
  refine ⟨SQLStatement.MultiStatement (stmts ++ [s]), ?_, ?_, ?_, ?_, ?_⟩
  · rw [h1]
    simp [Transformer.pivot_entries, Transformer.set_pivot_entries, List.map_map,
      Function.comp_def]
  · intro slot hslot
    obtain ⟨job, -, rfl⟩ := List.mem_map.mp hslot
    rfl
  · simp only [enumNames, rootEntries, List.map_eq_nil_iff]
    exact reduceOption_map_none jobs
  · simp [PivotEntryCount]
  · cases jobs <;> simp [HasPivotEntries]

/-- C7. For every job `{enum_name, base, column_name}`, `GenerateCreateEnumStmt` returns
a CREATE TYPE statement whose info is temporary, not internal, with catalog and schema
unset, named `enum_name`, with conflict policy `REPLACE_ON_CONFLICT` and type
`INVALID`, and whose defining query is a SELECT statement attached to the info. -/
theorem GenerateCreateEnumStmt_info (enum_name : String) (base : SelectNode)
    (column_name : String) :
    ∃ info select,
      GenerateCreateEnumStmt
          (some { enum_name := enum_name, base := base, column_name := column_name }) =
        some (SQLStatement.CreateStatement info) ∧
      info.temporary = true ∧
      info.internal = false ∧
      info.catalog = INVALID_CATALOG ∧
      info.schema = INVALID_SCHEMA ∧
      info.name = enum_name ∧
      info.on_conflict = OnCreateConflict.REPLACE_ON_CONFLICT ∧
      info.type = LogicalType.INVALID ∧
      info.query = some select :=
  ⟨_, _, rfl, rfl, rfl, rfl, rfl, rfl, rfl, rfl, rfl⟩

/-! ## C8: the defining query of a synthesized enum, end to end -/

theorem columnJobs_getElem (p : Nat) (source : TableRef) (m : CommonTableExpressionMap)
    (columns : List PivotColumn) (c0 c : Nat) (col : PivotColumn)
    (hc : columns[c]? = some col) (himp : col.implicit = true) :
    ∃ i : Nat,
      (columnJobs p source m c0 columns)[i]? = some (columnJob p source m (c0 + c) col) := by
  induction columns generalizing c0 c with
  | nil => simp at hc
  | cons col0 rest ih =>
    rw [columnJobs_cons]
    cases c with
    | zero =>
      simp only [List.getElem?_cons_zero, Option.some.injEq] at hc
      subst hc
      exact ⟨0, by simp [himp]⟩
    | succ c =>
      simp only [List.getElem?_cons_succ] at hc
      obtain ⟨i, hi⟩ := ih (c0 + 1) c hc
      have hidx : c0 + 1 + c = c0 + (c + 1) := by omega
      rw [hidx] at hi
      by_cases h0 : col0.implicit = true
      · exact ⟨i + 1, by simp [h0, hi]⟩
      · exact ⟨i, by simp [h0, hi]⟩

theorem names_singleton_of_not_multiName (col : PivotColumn) (himp : col.implicit = true)
    (h : col.multiName = false) : ∃ name, col.names = [name] := by
  simp only [PivotColumn.multiName, himp, Bool.true_and, bne_eq_false_iff_eq] at h
  match hn : col.names with
  | [name] => exact ⟨name, rfl⟩
  | [] => simp [hn] at h
  | a :: b :: l => simp [hn] at h

/-- C8. End to end: when `TransformPivotStatement` returns a query node, then for every
implicit column `col` at position `c` of the transformed columns, the column has a
single name `name`, the job named `__pivot_enum_<p>_<c>` is in the root queue after
the loop, at some slot `i`, and `CreatePivotStatement`, run on any scope that holds this
job at slot `i` and has no empty slot (the root of the chain after the loop is one when
no slot was empty before), returns a multi-statement whose `i`-th statement is the
declaration `CREATE TYPE __pivot_enum_<p>_<c> AS (SELECT CAST(name AS VARCHAR) FROM
source ORDER BY name ASC)`: a select list of exactly the cast of the column reference,
the FROM equal to the transformed source, which is also the source of the pivot
reference returned, and exactly one modifier, the ORDER BY on the column itself,
ascending with the default null order. -/
theorem enum_query_end_to_end (d : Delegates) (stmt : PGSelectStmt) (t t' : Transformer)
    (node : QueryNode) (h : TransformPivotStatement d stmt t = (.ok node, t')) :
    ∃ source columns select_node t0 t1,
      TransformPivotStatement.inputs d stmt t = (.ok (source, columns, select_node), t0) ∧
      (TransformPivotStatement.loop (PivotEntryCount t0) source 0 columns t0).2 = t1 ∧
      pivotSourceOf node = some source ∧
      ((∀ slot ∈ rootEntries t0, slot ≠ none) →
        (rootScope t1).pivot_entries = rootEntries t1 ∧
        ∀ slot ∈ (rootScope t1).pivot_entries, slot ≠ none) ∧
      ∀ (c : Nat) (col : PivotColumn),
        columns[c]? = some col → col.entries = [] → col.pivot_enum = "" →
        ∃ (name : String) (i : Nat) (job : CreatePivotEntry),
          col.names = [name] ∧
          (rootEntries t1)[i]? = some (some job) ∧
          job.enum_name = pivotEnumName (PivotEntryCount t0) c ∧
          ∀ (r : Transformer) (s : SQLStatement),
            r.pivot_entries[i]? = some (some job) →
            (∀ slot ∈ r.pivot_entries, slot ≠ none) →
            ∃ stmts r' cte_map,
              CreatePivotStatement r s = some (SQLStatement.MultiStatement stmts, r') ∧
              stmts[i]? = some (enumDeclaration (pivotEnumName (PivotEntryCount t0) c)
                cte_map source name) := by
  obtain ⟨source, columns, select_node, t0, hin, hany, hq⟩ :=
    TransformPivotStatement_ok d stmt t t' node h
  have hroot : rootEntries
      (TransformPivotStatement.loop (PivotEntryCount t0) source 0 columns t0).2 =
      rootEntries t0 ++ (columnJobs (PivotEntryCount t0) source (ExtractCTEsRecursive t0 []) 0
        columns).map some := by
    rw [loop_eq, beforeMultiName_eq_self columns hany]
    exact rootEntries_registerAll _ _
  have hscope : ∀ u : Transformer, (rootScope u).pivot_entries = rootEntries u := by
    intro u
    induction u with
    | root entries m => rfl
    | child parent entries m ih => simpa [rootScope, rootEntries] using ih
  refine ⟨source, columns, select_node, t0, _, hin, rfl,
    (pivotsOf_query_ok _ _ _ _ _ _ _ _ hq).2, ?_, ?_⟩
  · intro hfull
    refine ⟨hscope _, ?_⟩
    rw [hscope, hroot]
    intro slot hslot
    rcases List.mem_append.mp hslot with hs | hs
    · exact hfull slot hs
    · obtain ⟨job, -, rfl⟩ := List.mem_map.mp hs
      simp
  · intro c col hc hent henum
    have himp : col.implicit = true := by simp [PivotColumn.implicit, hent, henum]
    have hmem : col ∈ columns := List.getElem?_mem hc
    have hmn : col.multiName = false := by
      have := List.any_eq_false.mp hany col hmem
      simpa using this
    obtain ⟨name, hname⟩ := names_singleton_of_not_multiName col himp hmn
    obtain ⟨i, hi⟩ := columnJobs_getElem (PivotEntryCount t0) source
      (ExtractCTEsRecursive t0 []) columns 0 c col hc himp
    rw [Nat.zero_add] at hi
    refine ⟨name, (rootEntries t0).length + i,
      columnJob (PivotEntryCount t0) source (ExtractCTEsRecursive t0 []) c col, hname, ?_, rfl, ?_⟩
    · rw [hroot, List.getElem?_append_right (Nat.le_add_right _ _), Nat.add_sub_cancel_left,
        List.getElem?_map, hi]
      rfl
    · intro r s hr hfull
      obtain ⟨stmts, h1, h2, h3⟩ := CreatePivotStatement_total r s hfull
      refine ⟨stmts ++ [s], _, ExtractCTEsRecursive t0 [], h1, ?_⟩
      have hlt : (rootEntries t0).length + i < stmts.length := by
        rw [h2]
        by_contra hge
        rw [List.getElem?_eq_none (by omega)] at hr
        simp at hr
      rw [List.getElem?_append_left hlt, h3 _ _ hr]
      simp [GenerateCreateEnumStmt, columnJob, enumDeclaration, hname, SelectNode.select_list,
        SelectNode.modifiers, SelectNode.cte_map, SelectNode.from_table]

/-- C8, witness: `PIVOT t ON status USING sum(x)` on an empty queue; the drain gives the
declaration of `__pivot_enum_0_0` with the query `SELECT CAST(status AS VARCHAR) FROM t
ORDER BY status ASC`, followed by the rewritten statement. -/
theorem enum_query_end_to_end_witness :
    TransformPivotStatement plainDelegates pivotOneImplicit (.root [] []) =
        (.ok pivotOneImplicitNode, .root [some pivotOneImplicitJob] []) ∧
      CreatePivotStatement (.root [some pivotOneImplicitJob] [])
          (SQLStatement.SelectStatement { node := pivotOneImplicitNode }) =
        some (SQLStatement.MultiStatement
          [enumDeclaration "__pivot_enum_0_0" [] (TableRef.BaseTableRef "t") "status",
           SQLStatement.SelectStatement { node := pivotOneImplicitNode }],
          .root [none] []) ∧
      ∃ source columns select_node t0 t1,
        TransformPivotStatement.inputs plainDelegates pivotOneImplicit (.root [] []) =
          (.ok (source, columns, select_node), t0) ∧
        (TransformPivotStatement.loop (PivotEntryCount t0) source 0 columns t0).2 = t1 ∧
        pivotSourceOf pivotOneImplicitNode = some source ∧
        ((∀ slot ∈ rootEntries t0, slot ≠ none) →
          (rootScope t1).pivot_entries = rootEntries t1 ∧
          ∀ slot ∈ (rootScope t1).pivot_entries, slot ≠ none) ∧
        ∀ (c : Nat) (col : PivotColumn),
          columns[c]? = some col → col.entries = [] → col.pivot_enum = "" →
          ∃ (name : String) (i : Nat) (job : CreatePivotEntry),
            col.names = [name] ∧
            (rootEntries t1)[i]? = some (some job) ∧
            job.enum_name = pivotEnumName (PivotEntryCount t0) c ∧
            ∀ (r : Transformer) (s : SQLStatement),
              r.pivot_entries[i]? = some (some job) →
              (∀ slot ∈ r.pivot_entries, slot ≠ none) →
              ∃ stmts r' cte_map,
                CreatePivotStatement r s = some (SQLStatement.MultiStatement stmts, r') ∧
                stmts[i]? = some (enumDeclaration (pivotEnumName (PivotEntryCount t0) c)
                  cte_map source name) :=
  ⟨rfl, rfl, enum_query_end_to_end plainDelegates pivotOneImplicit (.root [] [])
    (.root [some pivotOneImplicitJob] []) pivotOneImplicitNode rfl⟩

/-! ## C9: enum names after resolution -/

/-- C9, as stated, fails: `PIVOT t ON status IN ('a', 'b') USING sum(x)` returns a
pivot reference whose only column has an empty enum name. -/
theorem explicit_column_keeps_empty_enum_name :
    TransformPivotStatement plainDelegates pivotExplicit (.root [] []) =
        (.ok pivotExplicitNode, .root [] []) ∧
      pivotsOf pivotExplicitNode = some pivotExplicitColumns ∧
      pivotExplicitColumns.map PivotColumn.pivot_enum = [""] :=
  ⟨rfl, rfl, rfl⟩

theorem mem_resolvedColumns (p c : Nat) (columns : List PivotColumn) (col : PivotColumn)
    (h : col ∈ resolvedColumns p c columns) :
    (∃ k, col.pivot_enum = pivotEnumName p k) ∨ (col ∈ columns ∧ col.implicit = false) := by
  induction columns generalizing c with
  | nil => simp [resolvedColumns] at h
  | cons col0 rest ih =>
    rw [resolvedColumns_cons, List.mem_cons] at h
    rcases h with h | h
    · by_cases h0 : col0.implicit = true
      · left
        simp only [h0, if_true] at h
        exact ⟨c, by rw [h]⟩
      · right
        simp only [h0, if_false, Bool.false_eq_true] at h
        subst h
        exact ⟨List.mem_cons_self _ _, by simpa using h0⟩
    · rcases ih (c + 1) h with h' | h'
      · exact Or.inl h'
      · exact Or.inr ⟨List.mem_cons_of_mem _ h'.1, h'.2⟩

/-- C9, amended. After resolution, every column in the pivot column list of the
returned pivot reference has a non-empty enum name or a non-empty explicit entry list;
the enum name is non-empty for every column without explicit entries. -/
theorem resolved_column_named_or_explicit (d : Delegates) (stmt : PGSelectStmt)
    (t t' : Transformer) (node : QueryNode)
    (h : TransformPivotStatement d stmt t = (.ok node, t')) :
    ∃ pivots, pivotsOf node = some pivots ∧
      (∀ col ∈ pivots, col.pivot_enum ≠ "" ∨ col.entries ≠ []) ∧
      ∀ col ∈ pivots, col.entries = [] → col.pivot_enum ≠ "" := by
  obtain ⟨source, columns, select_node, t0, -, -, hq⟩ :=
    TransformPivotStatement_ok d stmt t t' node h
  have key : ∀ col ∈ resolvedColumns (PivotEntryCount t0) 0 columns,
      col.pivot_enum ≠ "" ∨ col.entries ≠ [] := by
    intro col hcol
    rcases mem_resolvedColumns _ _ _ _ hcol with ⟨k, hk⟩ | ⟨-, himp⟩
    · left
      rw [hk]
      exact pivotEnumName_ne_empty _ _
    · simp only [PivotColumn.implicit, Bool.and_eq_false_iff, beq_eq_false_iff_ne, ne_eq] at himp
      rcases himp with h1 | h2
      · exact Or.inl h1
      · right
        intro hnil
        rw [hnil] at h2
        simp at h2
  refine ⟨_, (pivotsOf_query_ok _ _ _ _ _ _ _ _ hq).1, key, ?_⟩
  intro col hcol hent
  rcases key col hcol with h1 | h2
  · exact h1
  · exact absurd hent h2

/-- C9 amended, witness: `PIVOT t ON a, b USING sum(x)`. -/
theorem resolved_column_named_or_explicit_witness :
    TransformPivotStatement plainDelegates pivotTwoImplicit (.root [] []) =
        (.ok pivotTwoImplicitNode, pivotTwoImplicitAfter) ∧
      ∃ pivots, pivotsOf pivotTwoImplicitNode = some pivots ∧
        (∀ col ∈ pivots, col.pivot_enum ≠ "" ∨ col.entries ≠ []) ∧
        ∀ col ∈ pivots, col.entries = [] → col.pivot_enum ≠ "" :=
  ⟨rfl, resolved_column_named_or_explicit plainDelegates pivotTwoImplicit (.root [] [])
    pivotTwoImplicitAfter pivotTwoImplicitNode rfl⟩

/-! ## C10: when the transform fails with an internal error -/

/-- C10. Assume that the delegated transforms succeed: the source, the columns and the
WITH clause are transformed (to `source`, `columns`, `select_node`), and the transform
of the aggregate expressions of the clause does not throw. Then
`TransformPivotStatement` throws exactly when (a) some column with empty explicit
entries and empty enum name does not have exactly one name, or (b) the clause has
neither aggregate expressions nor unpivot names, and what it throws is then an internal
error; in every other case it returns a query node. With (a), also when (b) holds as
well, the error is the one about multiple names; with (b) alone it is the one about
missing unpivots and aggregates. -/
theorem internal_error_iff (d : Delegates) (stmt : PGSelectStmt) (t t0 : Transformer)
    (source : TableRef) (columns : List PivotColumn) (select_node : SelectNode)
    (hin : TransformPivotStatement.inputs d stmt t = (.ok (source, columns, select_node), t0))
    (hexpr : ∀ aggrs, stmt.pivot.aggrs = some aggrs →
      ∀ s, ∃ r, (d.TransformExpressionList aggrs s).1 = .ok r) :
    ((∃ e, (TransformPivotStatement d stmt t).1 = .error e) ↔
        (∃ col ∈ columns, col.entries = [] ∧ col.pivot_enum = "" ∧ col.names.length ≠ 1) ∨
          (stmt.pivot.aggrs = none ∧ stmt.pivot.unpivots = none)) ∧
      ((∃ msg, (TransformPivotStatement d stmt t).1 = .error (.InternalException msg)) ↔
        (∃ col ∈ columns, col.entries = [] ∧ col.pivot_enum = "" ∧ col.names.length ≠ 1) ∨
          (stmt.pivot.aggrs = none ∧ stmt.pivot.unpivots = none)) ∧
      ((∃ node, (TransformPivotStatement d stmt t).1 = .ok node) ↔
        ¬ ((∃ col ∈ columns, col.entries = [] ∧ col.pivot_enum = "" ∧ col.names.length ≠ 1) ∨
          (stmt.pivot.aggrs = none ∧ stmt.pivot.unpivots = none))) ∧
      ((∃ col ∈ columns, col.entries = [] ∧ col.pivot_enum = "" ∧ col.names.length ≠ 1) →
        (TransformPivotStatement d stmt t).1 =
          .error (.InternalException "PIVOT statement with multiple names in pivot entry!?")) ∧
      (¬ (∃ col ∈ columns, col.entries = [] ∧ col.pivot_enum = "" ∧ col.names.length ≠ 1) →
        stmt.pivot.aggrs = none ∧ stmt.pivot.unpivots = none →
        (TransformPivotStatement d stmt t).1 =
          .error (.InternalException "No unpivots and no aggrs")) := by
  rw [← any_multiName_iff]
  rw [TransformPivotStatement_of_inputs d stmt t t0 source columns select_node hin]
  by_cases hany : columns.any PivotColumn.multiName = true
  · simp [hany]
  · simp only [hany, if_false, false_or, not_false_eq_true, true_implies, false_implies,
      true_and, and_true, Bool.false_eq_true]
    unfold TransformPivotStatement.query
    match ha : stmt.pivot.aggrs with
    | some aggrs =>
      obtain ⟨r, hr⟩ := hexpr aggrs ha (registerAll t0 (columnJobs (PivotEntryCount t0) source
        (ExtractCTEsRecursive t0 []) 0 columns))
      match hd : d.TransformExpressionList aggrs (registerAll t0 (columnJobs (PivotEntryCount t0)
        source (ExtractCTEsRecursive t0 []) 0 columns)) with
      | (.error e, t1) => rw [hd] at hr; simp at hr
      | (.ok aggregates, t1) => simp [hd]
    | none =>
      match hu : stmt.pivot.unpivots with
      | none => simp
      | some unpivots => simp

/-- C10, witness: `PIVOT t ON a, b USING sum(x)`, on which the plain transforms succeed,
returns a query node; a clause with a two-name implicit column throws the error about
multiple names, also when it has neither aggregates nor unpivot names; a clause that
only lacks aggregates and unpivot names throws the other error. -/
theorem internal_error_iff_witness :
    TransformPivotStatement.inputs plainDelegates pivotTwoImplicit (.root [] []) =
        (.ok (TableRef.BaseTableRef "t",
          [{ names := ["a"], entries := [], pivot_enum := "" },
           { names := ["b"], entries := [], pivot_enum := "" }],
          SelectNode.mk [] [] none []), .root [] []) ∧
      (∀ aggrs, pivotTwoImplicit.pivot.aggrs = some aggrs →
        ∀ s, ∃ r, (plainDelegates.TransformExpressionList aggrs s).1 = .ok r) ∧
      (∃ node, (TransformPivotStatement plainDelegates pivotTwoImplicit (.root [] [])).1 =
        .ok node) ∧
      (TransformPivotStatement plainDelegates pivotMultiName (.root [] [])).1 =
        .error (.InternalException "PIVOT statement with multiple names in pivot entry!?") ∧
      (TransformPivotStatement plainDelegates pivotMultiNameNeither (.root [] [])).1 =
        .error (.InternalException "PIVOT statement with multiple names in pivot entry!?") ∧
      (TransformPivotStatement plainDelegates pivotNeither (.root [] [])).1 =
        .error (.InternalException "No unpivots and no aggrs") :=
  ⟨rfl, fun _ _ _ => ⟨_, rfl⟩,
    (internal_error_iff plainDelegates pivotTwoImplicit (.root [] []) (.root [] [])
      (TableRef.BaseTableRef "t")
      [{ names := ["a"], entries := [], pivot_enum := "" },
       { names := ["b"], entries := [], pivot_enum := "" }]
      (SelectNode.mk [] [] none []) rfl (fun _ _ _ => ⟨_, rfl⟩)).2.2.1.mpr (by
        simp [pivotTwoImplicit]),
    rfl, rfl, rfl⟩

/-! ## The parts of the node returned -/

/-- The select node that the transformed inputs come with is fresh: it has the CTEs of
the WITH clause and nothing else. -/
theorem inputs_ok (d : Delegates) (stmt : PGSelectStmt) (t t0 : Transformer)
    (source : TableRef) (columns : List PivotColumn) (select_node : SelectNode)
    (hin : TransformPivotStatement.inputs d stmt t = (.ok (source, columns, select_node), t0)) :
    select_node.select_list = [] ∧ select_node.modifiers = [] ∧
      select_node.from_table = none := by
  unfold TransformPivotStatement.inputs at hin
  simp only at hin
  split at hin
  · simp at hin
  · split at hin
    · simp at hin
    · split at hin
      · simp only [Prod.mk.injEq, Except.ok.injEq] at hin
        obtain ⟨⟨-, -, rfl⟩, -⟩ := hin
        exact ⟨rfl, rfl, rfl⟩
      · split at hin
        · simp at hin
        · simp only [Prod.mk.injEq, Except.ok.injEq] at hin
          obtain ⟨⟨-, -, rfl⟩, -⟩ := hin
          exact ⟨rfl, rfl, rfl⟩

/-- The node that the query step returns, with the origin of each part of its pivot
reference. -/
theorem query_ok_parts (d : Delegates) (pivot : PGPivotStmt) (source : TableRef)
    (select_node : SelectNode) (columns : List PivotColumn) (t t' : Transformer)
    (node : QueryNode)
    (h : TransformPivotStatement.query d pivot source select_node columns t = (.ok node, t')) :
    ∃ aggregates unpivot_names,
      node = SelectNode.mk select_node.cte_map
        (select_node.select_list ++ [ParsedExpression.StarExpression ""])
        (some (TableRef.PivotRef source aggregates unpivot_names
          (match pivot.groups with
            | some groups => d.TransformStringList groups
            | none => [])
          columns))
        select_node.modifiers ∧
      ((∃ aggrs, pivot.aggrs = some aggrs ∧
          d.TransformExpressionList aggrs t = (.ok aggregates, t') ∧ unpivot_names = []) ∨
        (pivot.aggrs = none ∧ ∃ unpivots, pivot.unpivots = some unpivots ∧
          aggregates = [] ∧ unpivot_names = d.TransformStringList unpivots ∧ t' = t)) := by
  unfold TransformPivotStatement.query at h
  match ha : pivot.aggrs with
  | some aggrs =>
    simp only [ha] at h
    match hd : d.TransformExpressionList aggrs t with
    | (.error e, t1) => simp [hd] at h
    | (.ok aggregates, t1) =>
      simp only [hd, Prod.mk.injEq, Except.ok.injEq] at h
      refine ⟨aggregates, [], h.1.symm, Or.inl ⟨aggrs, rfl, ?_, rfl⟩⟩
      rw [← h.2]
      exact hd
  | none =>
    simp only [ha] at h
    match hu : pivot.unpivots with
    | none => simp [hu] at h
    | some unpivots =>
      simp only [hu, Prod.mk.injEq, Except.ok.injEq] at h
      exact ⟨[], d.TransformStringList unpivots, h.1.symm,
        Or.inr ⟨rfl, unpivots, rfl, rfl, rfl, h.2.symm⟩⟩

/-! ## C11: aggregates and unpivot names -/

/-- C11. When `TransformPivotStatement` returns a query node, its pivot reference has
aggregates and unpivot names as follows. If the clause supplies aggregates, the
aggregates are their transform and the unpivot names are empty; otherwise the unpivot
names are the (transformed) unpivot name list of the clause and the aggregates are
empty. So the two are never both non-empty; and they are never both empty, given that
the delegated list transforms return a non-empty list for a list that exists (a list of
the grammar that exists has a first cell). -/
theorem aggregates_xor_unpivot_names (d : Delegates) (stmt : PGSelectStmt)
    (t t' : Transformer) (node : QueryNode)
    (h : TransformPivotStatement d stmt t = (.ok node, t')) :
    ∃ aggregates unpivot_names,
      aggregatesOf node = some aggregates ∧
      unpivotNamesOf node = some unpivot_names ∧
      (∀ aggrs, stmt.pivot.aggrs = some aggrs →
        (∃ t1, d.TransformExpressionList aggrs t1 = (.ok aggregates, t')) ∧
          unpivot_names = []) ∧
      (stmt.pivot.aggrs = none →
        ∃ unpivots, stmt.pivot.unpivots = some unpivots ∧
          unpivot_names = d.TransformStringList unpivots ∧ aggregates = []) ∧
      (aggregates = [] ∨ unpivot_names = []) ∧
      ((∀ l s r s', d.TransformExpressionList l s = (.ok r, s') → r ≠ []) →
        (∀ l, d.TransformStringList l ≠ []) →
        (aggregates ≠ [] ∨ unpivot_names ≠ [])) := by
  obtain ⟨source, columns, select_node, t0, -, -, hq⟩ :=
    TransformPivotStatement_ok d stmt t t' node h
  obtain ⟨aggregates, unpivot_names, rfl, hparts⟩ := query_ok_parts _ _ _ _ _ _ _ _ hq
  refine ⟨aggregates, unpivot_names, rfl, rfl, ?_, ?_, ?_, ?_⟩
  · intro aggrs ha
    rcases hparts with ⟨aggrs', ha', hd, hu⟩ | ⟨hnone, -⟩
    · rw [ha] at ha'
      cases ha'
      exact ⟨⟨_, hd⟩, hu⟩
    · rw [ha] at hnone
      cases hnone
  · intro ha
    rcases hparts with ⟨aggrs', ha', -, -⟩ | ⟨-, unpivots, hu, hagg, hnames, -⟩
    · rw [ha] at ha'
      cases ha'
    · exact ⟨unpivots, hu, hnames, hagg⟩
  · rcases hparts with ⟨-, -, -, hu⟩ | ⟨-, -, -, hagg, -, -⟩
    · exact Or.inr hu
    · exact Or.inl hagg
  · intro hexpr hstr
    rcases hparts with ⟨aggrs', -, hd, -⟩ | ⟨-, unpivots, -, -, hnames, -⟩
    · exact Or.inl (hexpr _ _ _ _ hd)
    · right
      rw [hnames]
      exact hstr unpivots

/-- C11, witness: `PIVOT t ON a, b USING sum(x)` has the aggregate `sum(x)` and no
unpivot names; the UNPIVOT clause has the unpivot name `v` and no aggregates. -/
theorem aggregates_xor_unpivot_names_witness :
    TransformPivotStatement plainDelegates pivotTwoImplicit (.root [] []) =
        (.ok pivotTwoImplicitNode, pivotTwoImplicitAfter) ∧
      aggregatesOf pivotTwoImplicitNode =
        some [ParsedExpression.FunctionExpression "sum"
          [ParsedExpression.ColumnRefExpression ["x"]]] ∧
      unpivotNamesOf pivotTwoImplicitNode = some [] ∧
      TransformPivotStatement plainDelegates unpivotClause (.root [] []) =
        (.ok unpivotClauseNode, .root [] []) ∧
      aggregatesOf unpivotClauseNode = some [] ∧
      unpivotNamesOf unpivotClauseNode = some ["v"] ∧
      ∃ aggregates unpivot_names,
        aggregatesOf pivotTwoImplicitNode = some aggregates ∧
        unpivotNamesOf pivotTwoImplicitNode = some unpivot_names ∧
        (∀ aggrs, pivotTwoImplicit.pivot.aggrs = some aggrs →
          (∃ t1, plainDelegates.TransformExpressionList aggrs t1 =
            (.ok aggregates, pivotTwoImplicitAfter)) ∧
            unpivot_names = []) ∧
        (pivotTwoImplicit.pivot.aggrs = none →
          ∃ unpivots, pivotTwoImplicit.pivot.unpivots = some unpivots ∧
            unpivot_names = plainDelegates.TransformStringList unpivots ∧ aggregates = []) ∧
        (aggregates = [] ∨ unpivot_names = []) ∧
        ((∀ l s r s', plainDelegates.TransformExpressionList l s = (.ok r, s') → r ≠ []) →
          (∀ l, plainDelegates.TransformStringList l ≠ []) →
          (aggregates ≠ [] ∨ unpivot_names ≠ [])) :=
  ⟨rfl, rfl, rfl, rfl, rfl, rfl,
    aggregates_xor_unpivot_names plainDelegates pivotTwoImplicit (.root [] [])
      pivotTwoImplicitAfter pivotTwoImplicitNode rfl⟩

/-! ## C12: what registering a job changes -/

theorem scopeQueues_AddPivotEntry (t : Transformer) (enum_name : String) (base : SelectNode)
    (column_name : String) :
    scopeQueues (AddPivotEntry t enum_name base column_name) = scopeQueues t := by
  induction t with
  | root entries m => rfl
  | child parent entries m ih => simp [AddPivotEntry, scopeQueues, ih]

theorem scopeCteMaps_AddPivotEntry (t : Transformer) (enum_name : String) (base : SelectNode)
    (column_name : String) :
    scopeCteMaps (AddPivotEntry t enum_name base column_name) = scopeCteMaps t := by
  induction t with
  | root entries m => rfl
  | child parent entries m ih => simp [AddPivotEntry, scopeCteMaps, ih]

/-- C12. `AddPivotEntry`, called on any scope of a chain, returns (it is a total
function, defined by recursion on the chain), and what it returns is the chain with
exactly one job, carrying the enum name, the source query and the column name given,
appended at the end of the queue of the root: the entries that were in the root queue
are unchanged and keep their positions, the local queue of every scope that is not the
root, the scope called included, is unchanged, and so is every CTE map. -/
theorem AddPivotEntry_appends_to_root (t : Transformer) (enum_name : String)
    (base : SelectNode) (column_name : String) :
    rootEntries (AddPivotEntry t enum_name base column_name) =
        rootEntries t ++
          [some { enum_name := enum_name, base := base, column_name := column_name }] ∧
      (rootEntries (AddPivotEntry t enum_name base column_name)).length =
        (rootEntries t).length + 1 ∧
      (∀ i : Nat, i < (rootEntries t).length →
        (rootEntries (AddPivotEntry t enum_name base column_name))[i]? = (rootEntries t)[i]?) ∧
      (rootEntries (AddPivotEntry t enum_name base column_name))[(rootEntries t).length]? =
        some (some { enum_name := enum_name, base := base, column_name := column_name }) ∧
      scopeQueues (AddPivotEntry t enum_name base column_name) = scopeQueues t ∧
      scopeCteMaps (AddPivotEntry t enum_name base column_name) = scopeCteMaps t := by
  have h := rootEntries_AddPivotEntry t enum_name base column_name
  refine ⟨h, by simp [h], ?_, ?_, scopeQueues_AddPivotEntry _ _ _ _,
    scopeCteMaps_AddPivotEntry _ _ _ _⟩
  · intro i hi
    rw [h, List.getElem?_append_left hi]
  · rw [h, List.getElem?_append_right (le_refl _)]
    simp

/-! ## C16: the queries on the queue -/

theorem HasPivotEntries_rootScope (t : Transformer) :
    HasPivotEntries (rootScope t) = HasPivotEntries t := by
  induction t with
  | root entries m => rfl
  | child parent entries m ih => simpa [HasPivotEntries, rootScope] using ih

theorem PivotEntryCount_rootScope (t : Transformer) :
    PivotEntryCount (rootScope t) = PivotEntryCount t := by
  induction t with
  | root entries m => rfl
  | child parent entries m ih => simpa [PivotEntryCount, rootScope] using ih

/-- C16. On every scope of a chain, `HasPivotEntries()` and `PivotEntryCount()` return
what they return on the root scope, whatever the local queue of the scope they are
called on (a scope with a parent returns what its parent returns, and the values are
those of the root queue), and they agree: `HasPivotEntries()` is true if and only if
`PivotEntryCount()` is positive. -/
theorem queue_queries_forward_to_root (t : Transformer) :
    HasPivotEntries t = HasPivotEntries (rootScope t) ∧
      PivotEntryCount t = PivotEntryCount (rootScope t) ∧
      HasPivotEntries t = !(rootEntries t).isEmpty ∧
      PivotEntryCount t = (rootEntries t).length ∧
      (∀ (entries : List (Option CreatePivotEntry)) (m : CommonTableExpressionMap),
        HasPivotEntries (.child t entries m) = HasPivotEntries t ∧
        PivotEntryCount (.child t entries m) = PivotEntryCount t) ∧
      (HasPivotEntries t = true ↔ 0 < PivotEntryCount t) := by
  refine ⟨(HasPivotEntries_rootScope t).symm, (PivotEntryCount_rootScope t).symm,
    HasPivotEntries_eq t, PivotEntryCount_eq_length t, fun _ _ => ⟨rfl, rfl⟩, ?_⟩
  rw [HasPivotEntries_eq, PivotEntryCount_eq_length]
  cases rootEntries t <;> simp

/-! ## C13: the CTEs of a synthesized query -/

theorem any_name_imp_lookup (m : CommonTableExpressionMap) (k : String)
    (h : m.any (fun found => found.1 == k) = true) : m.lookup k ≠ none := by
  induction m with
  | nil => simp at h
  | cons e rest ih =>
    obtain ⟨name, q⟩ := e
    rw [List.lookup_cons]
    by_cases hk : k = name
    · simp [hk]
    · have hk' : (k == name) = false := by simpa using hk
      have hk'' : (name == k) = false := by simpa using fun h' => hk h'.symm
      simp only [List.any_cons, hk'', Bool.false_or] at h
      simpa [hk'] using ih h

theorem lookup_cons_or (e : String × SelectNode) (rest : CommonTableExpressionMap)
    (n : String) : (e :: rest).lookup n = ([e].lookup n).or (rest.lookup n) := by
  obtain ⟨name, q⟩ := e
  simp only [List.lookup_cons, List.lookup_nil]
  cases n == name <;> simp

/-- A merge keeps what the map given defines and adds what only the local map
defines. -/
theorem lookup_mergeCTEs (local_cte_map cte_map : CommonTableExpressionMap) (n : String) :
    (mergeCTEs local_cte_map cte_map).lookup n =
      (cte_map.lookup n).or (local_cte_map.lookup n) := by
  induction local_cte_map generalizing cte_map with
  | nil => simp [mergeCTEs, Option.or_none]
  | cons e rest ih =>
    have hstep : mergeCTEs (e :: rest) cte_map =
        mergeCTEs rest
          (if cte_map.any (fun found => found.1 == e.1) then cte_map else cte_map ++ [e]) := by
      simp [mergeCTEs]
    rw [hstep, ih]
    by_cases hany : cte_map.any (fun found => found.1 == e.1) = true
    · simp only [hany, if_true]
      cases hacc : cte_map.lookup n with
      | some q => simp
      | none =>
        simp only [Option.none_or]
        obtain ⟨name, q⟩ := e
        rw [List.lookup_cons]
        by_cases hn : n = name
        · subst hn
          exact absurd hacc (any_name_imp_lookup cte_map n hany)
        · have hn' : (n == name) = false := by simpa using hn
          simp [hn']
    · simp only [hany, if_false, Bool.false_eq_true]
      rw [List.lookup_append, lookup_cons_or e rest n, Option.or_assoc]

/-- The collected map defines a name as the innermost scope that defines it does. -/
theorem lookup_ExtractCTEsRecursive (t : Transformer) (cte_map : CommonTableExpressionMap)
    (n : String) :
    (ExtractCTEsRecursive t cte_map).lookup n = (cte_map.lookup n).or (visibleCTE t n) := by
  induction t generalizing cte_map with
  | root entries m => simp [ExtractCTEsRecursive, visibleCTE, lookup_mergeCTEs]
  | child parent entries m ih =>
    simp [ExtractCTEsRecursive, visibleCTE, ih, lookup_mergeCTEs, Option.or_assoc]

theorem visibleCTE_isSome (t : Transformer) (n : String) :
    (visibleCTE t n).isSome = true ↔ ∃ m ∈ scopeCteMaps t, (m.lookup n).isSome = true := by
  induction t with
  | root entries m => simp [visibleCTE, scopeCteMaps]
  | child parent entries m ih =>
    simp only [visibleCTE, scopeCteMaps, List.mem_cons, exists_eq_or_imp, ← ih]
    cases m.lookup n <;> simp

theorem mem_columnJobs_cte_map (p : Nat) (source : TableRef) (m : CommonTableExpressionMap)
    (c : Nat) (columns : List PivotColumn) (job : CreatePivotEntry)
    (h : job ∈ columnJobs p source m c columns) : job.base.cte_map = m := by
  simp only [columnJobs, List.mem_map] at h
  obtain ⟨x, -, rfl⟩ := h
  rfl

/-- C13. When `TransformPivotStatement` returns a query node, the source query of every
job that its loop registers (one per implicit column) has as its CTE map exactly the
result of `ExtractCTEsRecursive` on an empty map at the scope of the clause. That map
defines a name exactly when some scope of the chain, from the scope of the clause out
to the root, defines it, and it gives the name the definition of the innermost scope
that defines it. -/
theorem job_ctes_are_visible_ctes (d : Delegates) (stmt : PGSelectStmt) (t t' : Transformer)
    (node : QueryNode) (h : TransformPivotStatement d stmt t = (.ok node, t')) :
    ∃ source columns select_node t0 t1, ∃ jobs : List CreatePivotEntry,
      TransformPivotStatement.inputs d stmt t = (.ok (source, columns, select_node), t0) ∧
      (TransformPivotStatement.loop (PivotEntryCount t0) source 0 columns t0).2 = t1 ∧
      rootEntries t1 = rootEntries t0 ++ jobs.map some ∧
      jobs.length = (columns.filter PivotColumn.implicit).length ∧
      (∀ job ∈ jobs, job.base.cte_map = ExtractCTEsRecursive t0 []) ∧
      (∀ name, (ExtractCTEsRecursive t0 []).lookup name = visibleCTE t0 name) ∧
      (∀ name, ((ExtractCTEsRecursive t0 []).lookup name).isSome = true ↔
        ∃ m ∈ scopeCteMaps t0, (m.lookup name).isSome = true) := by
  obtain ⟨source, columns, select_node, t0, hin, hany, -⟩ :=
    TransformPivotStatement_ok d stmt t t' node h
  have hlook : ∀ name, (ExtractCTEsRecursive t0 []).lookup name = visibleCTE t0 name := by
    intro name
    rw [lookup_ExtractCTEsRecursive]
    simp
  refine ⟨source, columns, select_node, t0, _,
    columnJobs (PivotEntryCount t0) source (ExtractCTEsRecursive t0 []) 0 columns,
    hin, rfl, ?_, columnJobs_length _ _ _ _ _, ?_, hlook, ?_⟩
  · rw [loop_eq, beforeMultiName_eq_self columns hany]
    exact rootEntries_registerAll _ _
  · intro job hjob
    exact mem_columnJobs_cte_map _ _ _ _ _ job hjob
  · intro name
    rw [hlook, visibleCTE_isSome]

/-- C13, witness: `PIVOT t ON status USING sum(x)` in a nested scope that defines the
CTE `c`, inside a root that defines `c` and `d`: the query of the job has the `c` of the
nested scope and the `d` of the root. -/
theorem job_ctes_are_visible_ctes_witness :
    TransformPivotStatement plainDelegates pivotOneImplicit scopeWithCTEs =
        (.ok pivotOneImplicitNode, scopeWithCTEsAfter) ∧
      ExtractCTEsRecursive scopeWithCTEs [] = [("c", cteBody "inner"), ("d", cteBody "other")] ∧
      ∃ source columns select_node t0 t1, ∃ jobs : List CreatePivotEntry,
        TransformPivotStatement.inputs plainDelegates pivotOneImplicit scopeWithCTEs =
          (.ok (source, columns, select_node), t0) ∧
        (TransformPivotStatement.loop (PivotEntryCount t0) source 0 columns t0).2 = t1 ∧
        rootEntries t1 = rootEntries t0 ++ jobs.map some ∧
        jobs.length = (columns.filter PivotColumn.implicit).length ∧
        (∀ job ∈ jobs, job.base.cte_map = ExtractCTEsRecursive t0 []) ∧
        (∀ name, (ExtractCTEsRecursive t0 []).lookup name = visibleCTE t0 name) ∧
        (∀ name, ((ExtractCTEsRecursive t0 []).lookup name).isSome = true ↔
          ∃ m ∈ scopeCteMaps t0, (m.lookup name).isSome = true) :=
  ⟨rfl, rfl, job_ctes_are_visible_ctes plainDelegates pivotOneImplicit scopeWithCTEs
    scopeWithCTEsAfter pivotOneImplicitNode rfl⟩

/-! ## C14: registration order is column order -/

theorem implicitPositions_pairwise (c : Nat) (columns : List PivotColumn) :
    (implicitPositions c columns).Pairwise (· < ·) := by
  have hsub : (implicitPositions c columns).Sublist ((columns.enumFrom c).map Prod.fst) :=
    (List.filter_sublist _).map _
  refine List.Pairwise.sublist hsub ?_
  rw [List.enumFrom_map_fst]
  exact List.pairwise_lt_range' c columns.length

/-- The `i`-th implicit position and the `i`-th job belong to the same column. -/
theorem implicitPositions_getElem (p : Nat) (source : TableRef) (m : CommonTableExpressionMap)
    (columns : List PivotColumn) (c0 i c : Nat)
    (h : (implicitPositions c0 columns)[i]? = some c) :
    ∃ col, c0 ≤ c ∧ columns[c - c0]? = some col ∧ col.implicit = true ∧
      (columnJobs p source m c0 columns)[i]? = some (columnJob p source m c col) := by
  induction columns generalizing c0 i with
  | nil => simp [implicitPositions_nil] at h
  | cons col0 rest ih =>
    rw [implicitPositions_cons] at h
    rw [columnJobs_cons]
    by_cases h0 : col0.implicit = true
    · simp only [h0, if_true] at h ⊢
      cases i with
      | zero =>
        simp only [List.getElem?_cons_zero, Option.some.injEq] at h
        subst h
        exact ⟨col0, le_refl _, by simp, h0, by simp⟩
      | succ i =>
        simp only [List.getElem?_cons_succ] at h ⊢
        obtain ⟨col, hle, hcol, himp, hjob⟩ := ih (c0 + 1) i h
        refine ⟨col, by omega, ?_, himp, hjob⟩
        have hidx : c - c0 = (c - (c0 + 1)) + 1 := by omega
        rw [hidx, List.getElem?_cons_succ]
        exact hcol
    · simp only [h0, if_false, Bool.false_eq_true] at h ⊢
      obtain ⟨col, hle, hcol, himp, hjob⟩ := ih (c0 + 1) i h
      refine ⟨col, by omega, ?_, himp, hjob⟩
      have hidx : c - c0 = (c - (c0 + 1)) + 1 := by omega
      rw [hidx, List.getElem?_cons_succ]
      exact hcol

theorem resolvedColumns_getElem (p c0 : Nat) (columns : List PivotColumn) (c : Nat)
    (col : PivotColumn) (h : columns[c]? = some col) :
    (resolvedColumns p c0 columns)[c]? =
      some (if col.implicit then { col with pivot_enum := pivotEnumName p (c0 + c) } else col) := by
  simp [resolvedColumns, List.getElem?_map, List.getElem?_enumFrom, h]

theorem resolvedColumns_length (p c0 : Nat) (columns : List PivotColumn) :
    (resolvedColumns p c0 columns).length = columns.length := by
  simp [resolvedColumns]

theorem implicit_iff (col : PivotColumn) :
    col.implicit = true ↔ col.entries = [] ∧ col.pivot_enum = "" := by
  simp only [PivotColumn.implicit, Bool.and_eq_true, beq_iff_eq, List.isEmpty_iff]
  exact ⟨fun h => ⟨h.2, h.1⟩, fun h => ⟨h.2, h.1⟩⟩

/-- What the final chain of a run that returns is, in terms of the chain after the
loop. -/
theorem query_final_state (d : Delegates) (pivot : PGPivotStmt) (source : TableRef)
    (select_node : SelectNode) (columns : List PivotColumn) (t t' : Transformer)
    (node : QueryNode)
    (h : TransformPivotStatement.query d pivot source select_node columns t = (.ok node, t')) :
    (pivot.aggrs = none → t' = t) ∧
      ∀ aggrs, pivot.aggrs = some aggrs → t' = (d.TransformExpressionList aggrs t).2 := by
  obtain ⟨aggregates, unpivot_names, -, hparts⟩ := query_ok_parts _ _ _ _ _ _ _ _ h
  rcases hparts with ⟨aggrs', ha', hd, -⟩ | ⟨hnone, -, -, -, -, ht⟩
  · refine ⟨fun hn => ?_, fun aggrs ha => ?_⟩
    · rw [hn] at ha'
      cases ha'
    · rw [ha] at ha'
      cases ha'
      rw [hd]
  · refine ⟨fun _ => ht, fun aggrs ha => ?_⟩
    rw [ha] at hnone
    cases hnone

/-- C14. When `TransformPivotStatement` returns a query node, the root queue after its
loop is the queue as it stood when `p` was read, followed by one job per implicit
column, in strictly increasing column position (the final chain is that one when the
clause has no aggregates, and otherwise what the transform of the aggregates makes of
it). The `i`-th job belongs to the `i`-th implicit column, at position `c`: its
`column_name` is the single name of that column, its `enum_name` is
`__pivot_enum_<p>_<c>`, and the column at position `c` of the pivot reference returned
has that `enum_name`. -/
theorem jobs_in_column_order (d : Delegates) (stmt : PGSelectStmt) (t t' : Transformer)
    (node : QueryNode) (h : TransformPivotStatement d stmt t = (.ok node, t')) :
    ∃ source columns select_node t0 t1 pivots, ∃ jobs : List CreatePivotEntry,
      TransformPivotStatement.inputs d stmt t = (.ok (source, columns, select_node), t0) ∧
      (TransformPivotStatement.loop (PivotEntryCount t0) source 0 columns t0).2 = t1 ∧
      rootEntries t1 = rootEntries t0 ++ jobs.map some ∧
      (stmt.pivot.aggrs = none → t' = t1) ∧
      (∀ aggrs, stmt.pivot.aggrs = some aggrs → t' = (d.TransformExpressionList aggrs t1).2) ∧
      pivotsOf node = some pivots ∧
      (implicitPositions 0 columns).Pairwise (· < ·) ∧
      (∀ c, c ∈ implicitPositions 0 columns ↔
        ∃ col, columns[c]? = some col ∧ col.entries = [] ∧ col.pivot_enum = "") ∧
      jobs.length = (implicitPositions 0 columns).length ∧
      ∀ (i c : Nat), (implicitPositions 0 columns)[i]? = some c →
        ∃ job col col',
          jobs[i]? = some job ∧
          columns[c]? = some col ∧
          col.names = [job.column_name] ∧
          job.enum_name = pivotEnumName (PivotEntryCount t0) c ∧
          pivots[c]? = some col' ∧
          col'.pivot_enum = job.enum_name ∧
          col'.names = col.names := by
  obtain ⟨source, columns, select_node, t0, hin, hany, hq⟩ :=
    TransformPivotStatement_ok d stmt t t' node h
  have hloop : (TransformPivotStatement.loop (PivotEntryCount t0) source 0 columns t0).2 =
      registerAll t0
        (columnJobs (PivotEntryCount t0) source (ExtractCTEsRecursive t0 []) 0 columns) := by
    rw [loop_eq, beforeMultiName_eq_self columns hany]
  have hfinal := query_final_state _ _ _ _ _ _ _ _ hq
  refine ⟨source, columns, select_node, t0, _, resolvedColumns (PivotEntryCount t0) 0 columns,
    columnJobs (PivotEntryCount t0) source (ExtractCTEsRecursive t0 []) 0 columns,
    hin, rfl, ?_, ?_, ?_, (pivotsOf_query_ok _ _ _ _ _ _ _ _ hq).1,
    implicitPositions_pairwise 0 columns, ?_, ?_, ?_⟩
  · rw [hloop]
    exact rootEntries_registerAll _ _
  · rw [hloop]
    exact hfinal.1
  · rw [hloop]
    exact hfinal.2
  · intro c
    have := mem_implicitPositions 0 columns c
    rw [Nat.zero_add] at this
    rw [this]
    exact exists_congr fun col => and_congr_right fun _ => implicit_iff col
  · rw [columnJobs_length, implicitPositions_length]
  · intro i c hi
    obtain ⟨col, -, hcol, himp, hjob⟩ := implicitPositions_getElem (PivotEntryCount t0) source
      (ExtractCTEsRecursive t0 []) columns 0 i c hi
    rw [Nat.sub_zero] at hcol
    have hmn : col.multiName = false := by
      have := List.any_eq_false.mp hany col (List.getElem?_mem hcol)
      simpa using this
    obtain ⟨name, hname⟩ := names_singleton_of_not_multiName col himp hmn
    refine ⟨_, col, { col with pivot_enum := pivotEnumName (PivotEntryCount t0) c },
      hjob, hcol, ?_, rfl, ?_, rfl, rfl⟩
    · simp [columnJob, hname]
    · rw [resolvedColumns_getElem _ _ _ _ _ hcol]
      simp [himp]

/-- C14, witness: `PIVOT t ON a, b USING sum(x)` on an empty queue. -/
theorem jobs_in_column_order_witness :
    TransformPivotStatement plainDelegates pivotTwoImplicit (.root [] []) =
        (.ok pivotTwoImplicitNode, pivotTwoImplicitAfter) ∧
      (rootEntries pivotTwoImplicitAfter).reduceOption.map CreatePivotEntry.column_name =
        ["a", "b"] ∧
      ∃ source columns select_node t0 t1 pivots, ∃ jobs : List CreatePivotEntry,
        TransformPivotStatement.inputs plainDelegates pivotTwoImplicit (.root [] []) =
          (.ok (source, columns, select_node), t0) ∧
        (TransformPivotStatement.loop (PivotEntryCount t0) source 0 columns t0).2 = t1 ∧
        rootEntries t1 = rootEntries t0 ++ jobs.map some ∧
        (pivotTwoImplicit.pivot.aggrs = none → pivotTwoImplicitAfter = t1) ∧
        (∀ aggrs, pivotTwoImplicit.pivot.aggrs = some aggrs →
          pivotTwoImplicitAfter = (plainDelegates.TransformExpressionList aggrs t1).2) ∧
        pivotsOf pivotTwoImplicitNode = some pivots ∧
        (implicitPositions 0 columns).Pairwise (· < ·) ∧
        (∀ c, c ∈ implicitPositions 0 columns ↔
          ∃ col, columns[c]? = some col ∧ col.entries = [] ∧ col.pivot_enum = "") ∧
        jobs.length = (implicitPositions 0 columns).length ∧
        ∀ (i c : Nat), (implicitPositions 0 columns)[i]? = some c →
          ∃ job col col',
            jobs[i]? = some job ∧
            columns[c]? = some col ∧
            col.names = [job.column_name] ∧
            job.enum_name = pivotEnumName (PivotEntryCount t0) c ∧
            pivots[c]? = some col' ∧
            col'.pivot_enum = job.enum_name ∧
            col'.names = col.names :=
  ⟨rfl, rfl, jobs_in_column_order plainDelegates pivotTwoImplicit (.root [] [])
    pivotTwoImplicitAfter pivotTwoImplicitNode rfl⟩

/-! ## C15: the names depend on the queue through its length only -/

theorem implicitPositions_congr (c : Nat) (columns₁ columns₂ : List PivotColumn)
    (h : columns₁.map PivotColumn.implicit = columns₂.map PivotColumn.implicit) :
    implicitPositions c columns₁ = implicitPositions c columns₂ := by
  induction columns₁ generalizing columns₂ c with
  | nil =>
    cases columns₂ with
    | nil => rfl
    | cons b l => simp at h
  | cons a l ih =>
    cases columns₂ with
    | nil => simp at h
    | cons b l' =>
      simp only [List.map_cons, List.cons.injEq] at h
      rw [implicitPositions_cons, implicitPositions_cons, h.1, ih (c + 1) l' h.2]

/-- The names that the loop generates, whether it returns or throws. -/
theorem generatedNames_loop (p : Nat) (source : TableRef) (columns : List PivotColumn) (c : Nat)
    (t : Transformer) :
    generatedNames t (TransformPivotStatement.loop p source c columns t).2 =
      (implicitPositions c (beforeMultiName columns)).map (pivotEnumName p) := by
  rw [loop_eq]
  simp only [generatedNames, rootEntries_registerAll, List.drop_left', enumNames]
  rw [reduceOption_map_some (fun job => job) _]
  simpa using columnJobs_names p source _ c (beforeMultiName columns)

/-- C15. Take two runs of `TransformPivotStatement` that return a query node, on any
clauses, delegated transforms and scope chains. If the root queues have the same length
when the clause index is read (they may differ in content, and the sources and column
names may differ) and the transformed columns have the same pattern of implicit and
explicit columns, then the two runs generate the same enum names in the same order,
namely `__pivot_enum_<p>_<c>` for that length `p` and the implicit positions `c`, and
assign the same enum name to the implicit column at each position of the pivot
references returned. A run taken twice is the case of one clause and one queue. -/
theorem generated_names_depend_on_length (d₁ d₂ : Delegates) (stmt₁ stmt₂ : PGSelectStmt)
    (t₁ t₂ : Transformer) (node₁ node₂ : QueryNode)
    (h₁ : (TransformPivotStatement d₁ stmt₁ t₁).1 = .ok node₁)
    (h₂ : (TransformPivotStatement d₂ stmt₂ t₂).1 = .ok node₂) :
    ∃ source₁ columns₁ select₁ s₁ source₂ columns₂ select₂ s₂,
      TransformPivotStatement.inputs d₁ stmt₁ t₁ = (.ok (source₁, columns₁, select₁), s₁) ∧
      TransformPivotStatement.inputs d₂ stmt₂ t₂ = (.ok (source₂, columns₂, select₂), s₂) ∧
      ((rootEntries s₁).length = (rootEntries s₂).length →
        columns₁.map PivotColumn.implicit = columns₂.map PivotColumn.implicit →
        generatedNames s₁
            (TransformPivotStatement.loop (PivotEntryCount s₁) source₁ 0 columns₁ s₁).2 =
          generatedNames s₂
            (TransformPivotStatement.loop (PivotEntryCount s₂) source₂ 0 columns₂ s₂).2 ∧
        generatedNames s₁
            (TransformPivotStatement.loop (PivotEntryCount s₁) source₁ 0 columns₁ s₁).2 =
          (implicitPositions 0 columns₁).map (pivotEnumName (rootEntries s₁).length) ∧
        ∃ pivots₁ pivots₂, pivotsOf node₁ = some pivots₁ ∧ pivotsOf node₂ = some pivots₂ ∧
          ∀ c ∈ implicitPositions 0 columns₁,
            (pivots₁[c]?).map PivotColumn.pivot_enum =
                some (pivotEnumName (rootEntries s₁).length c) ∧
              (pivots₂[c]?).map PivotColumn.pivot_enum =
                some (pivotEnumName (rootEntries s₁).length c)) := by
  have h₁' : TransformPivotStatement d₁ stmt₁ t₁ =
      (.ok node₁, (TransformPivotStatement d₁ stmt₁ t₁).2) := Prod.ext h₁ rfl
  have h₂' : TransformPivotStatement d₂ stmt₂ t₂ =
      (.ok node₂, (TransformPivotStatement d₂ stmt₂ t₂).2) := Prod.ext h₂ rfl
  obtain ⟨source₁, columns₁, select₁, s₁, hin₁, hany₁, hq₁⟩ :=
    TransformPivotStatement_ok _ _ _ _ _ h₁'
  obtain ⟨source₂, columns₂, select₂, s₂, hin₂, hany₂, hq₂⟩ :=
    TransformPivotStatement_ok _ _ _ _ _ h₂'
  refine ⟨source₁, columns₁, select₁, s₁, source₂, columns₂, select₂, s₂, hin₁, hin₂, ?_⟩
  intro hlen hpat
  have hpos := implicitPositions_congr 0 columns₁ columns₂ hpat
  have hg₁ := generatedNames_loop (PivotEntryCount s₁) source₁ columns₁ 0 s₁
  have hg₂ := generatedNames_loop (PivotEntryCount s₂) source₂ columns₂ 0 s₂
  rw [beforeMultiName_eq_self _ hany₁, PivotEntryCount_eq_length] at hg₁
  rw [beforeMultiName_eq_self _ hany₂, PivotEntryCount_eq_length, ← hpos, ← hlen] at hg₂
  refine ⟨?_, ?_, resolvedColumns (PivotEntryCount s₁) 0 columns₁,
    resolvedColumns (PivotEntryCount s₂) 0 columns₂,
    (pivotsOf_query_ok _ _ _ _ _ _ _ _ hq₁).1, (pivotsOf_query_ok _ _ _ _ _ _ _ _ hq₂).1, ?_⟩
  · rw [PivotEntryCount_eq_length, PivotEntryCount_eq_length, hg₁, ← hlen, hg₂]
  · rw [PivotEntryCount_eq_length, hg₁]
  · intro c hc
    have hc₂ : c ∈ implicitPositions 0 columns₂ := hpos ▸ hc
    have m₁ := mem_implicitPositions 0 columns₁ c
    have m₂ := mem_implicitPositions 0 columns₂ c
    rw [Nat.zero_add] at m₁ m₂
    obtain ⟨col₁, hcol₁, himp₁⟩ := m₁.mp hc
    obtain ⟨col₂, hcol₂, himp₂⟩ := m₂.mp hc₂
    rw [resolvedColumns_getElem _ _ _ _ _ hcol₁, resolvedColumns_getElem _ _ _ _ _ hcol₂]
    simp [himp₁, himp₂, PivotEntryCount_eq_length, hlen]

/-- C15, witness: `PIVOT t ON status USING sum(x)` and `PIVOT u ON k USING sum(y)`, each
on a queue of one job, the two queues holding different jobs: both generate
`__pivot_enum_1_0`. -/
theorem generated_names_depend_on_length_witness :
    (TransformPivotStatement plainDelegates pivotOneImplicit (.root [some jobA] [])).1 =
        .ok pivotOneImplicitNodeAtOne ∧
      (TransformPivotStatement plainDelegates (nestedClause [.leaf "u", .leaf "k"])
          (.root [some pivotOneImplicitJob] [])).1 = .ok pivotOtherNodeAtOne ∧
      generatedNames (.root [some jobA] [])
          (TransformPivotStatement plainDelegates pivotOneImplicit (.root [some jobA] [])).2 =
        ["__pivot_enum_1_0"] ∧
      generatedNames (.root [some pivotOneImplicitJob] [])
          (TransformPivotStatement plainDelegates (nestedClause [.leaf "u", .leaf "k"])
            (.root [some pivotOneImplicitJob] [])).2 = ["__pivot_enum_1_0"] ∧
      ∃ source₁ columns₁ select₁ s₁ source₂ columns₂ select₂ s₂,
        TransformPivotStatement.inputs plainDelegates pivotOneImplicit (.root [some jobA] []) =
          (.ok (source₁, columns₁, select₁), s₁) ∧
        TransformPivotStatement.inputs plainDelegates (nestedClause [.leaf "u", .leaf "k"])
            (.root [some pivotOneImplicitJob] []) = (.ok (source₂, columns₂, select₂), s₂) ∧
        ((rootEntries s₁).length = (rootEntries s₂).length →
          columns₁.map PivotColumn.implicit = columns₂.map PivotColumn.implicit →
          generatedNames s₁
              (TransformPivotStatement.loop (PivotEntryCount s₁) source₁ 0 columns₁ s₁).2 =
            generatedNames s₂
              (TransformPivotStatement.loop (PivotEntryCount s₂) source₂ 0 columns₂ s₂).2 ∧
          generatedNames s₁
              (TransformPivotStatement.loop (PivotEntryCount s₁) source₁ 0 columns₁ s₁).2 =
            (implicitPositions 0 columns₁).map (pivotEnumName (rootEntries s₁).length) ∧
          ∃ pivots₁ pivots₂,
            pivotsOf pivotOneImplicitNodeAtOne = some pivots₁ ∧
            pivotsOf pivotOtherNodeAtOne = some pivots₂ ∧
            ∀ c ∈ implicitPositions 0 columns₁,
              (pivots₁[c]?).map PivotColumn.pivot_enum =
                  some (pivotEnumName (rootEntries s₁).length c) ∧
                (pivots₂[c]?).map PivotColumn.pivot_enum =
                  some (pivotEnumName (rootEntries s₁).length c)) :=
  ⟨rfl, rfl, rfl, rfl,
    generated_names_depend_on_length plainDelegates plainDelegates pivotOneImplicit
      (nestedClause [.leaf "u", .leaf "k"]) (.root [some jobA] [])
      (.root [some pivotOneImplicitJob] []) pivotOneImplicitNodeAtOne pivotOtherNodeAtOne
      rfl rfl⟩

/-! ## C17: the shape of the node returned -/

/-- C17. When `TransformPivotStatement` returns a query node, the select list of the
node consists of exactly one item, an unqualified star, and its FROM is a pivot
reference whose source is the transformed source, whose pivot column list has the
length of the transformed column list and, position by position, the names and the
explicit entries of its columns (a column that is not implicit is carried over as it
is), and whose groups are the (transformed) group names of the clause when the clause
has groups and empty otherwise. -/
theorem pivot_node_shape (d : Delegates) (stmt : PGSelectStmt) (t t' : Transformer)
    (node : QueryNode) (h : TransformPivotStatement d stmt t = (.ok node, t')) :
    ∃ source columns select_node t0 pivots,
      TransformPivotStatement.inputs d stmt t = (.ok (source, columns, select_node), t0) ∧
      node.select_list = [ParsedExpression.StarExpression ""] ∧
      pivotSourceOf node = some source ∧
      pivotsOf node = some pivots ∧
      pivots.length = columns.length ∧
      (∀ (c : Nat) (col : PivotColumn), columns[c]? = some col →
        ∃ col', pivots[c]? = some col' ∧ col'.names = col.names ∧
          col'.entries = col.entries ∧ (col.implicit = false → col' = col)) ∧
      (∀ groups, stmt.pivot.groups = some groups →
        groupsOf node = some (d.TransformStringList groups)) ∧
      (stmt.pivot.groups = none → groupsOf node = some []) := by
  obtain ⟨source, columns, select_node, t0, hin, -, hq⟩ :=
    TransformPivotStatement_ok d stmt t t' node h
  obtain ⟨hsel, -, -⟩ := inputs_ok d stmt t t0 source columns select_node hin
  obtain ⟨aggregates, unpivot_names, rfl, -⟩ := query_ok_parts _ _ _ _ _ _ _ _ hq
  refine ⟨source, columns, select_node, t0, resolvedColumns (PivotEntryCount t0) 0 columns,
    hin, ?_, rfl, rfl, resolvedColumns_length _ _ _, ?_, ?_, ?_⟩
  · show select_node.select_list ++ [ParsedExpression.StarExpression ""] = _
    rw [hsel]
    rfl
  · intro c col hc
    refine ⟨_, resolvedColumns_getElem _ _ _ _ _ hc, ?_, ?_, ?_⟩
    · by_cases himp : col.implicit = true <;> simp [himp]
    · by_cases himp : col.implicit = true <;> simp [himp]
    · intro himp
      simp [himp]
  · intro groups hg
    simp [groupsOf, SelectNode.from_table, hg]
  · intro hg
    simp [groupsOf, SelectNode.from_table, hg]

/-- C17, witness: `PIVOT t ON a USING sum(x) GROUP BY g`. -/
theorem pivot_node_shape_witness :
    TransformPivotStatement plainDelegates pivotGrouped (.root [] []) =
        (.ok pivotGroupedNode, .root [some jobA] []) ∧
      groupsOf pivotGroupedNode = some ["g"] ∧
      ∃ source columns select_node t0 pivots,
        TransformPivotStatement.inputs plainDelegates pivotGrouped (.root [] []) =
          (.ok (source, columns, select_node), t0) ∧
        pivotGroupedNode.select_list = [ParsedExpression.StarExpression ""] ∧
        pivotSourceOf pivotGroupedNode = some source ∧
        pivotsOf pivotGroupedNode = some pivots ∧
        pivots.length = columns.length ∧
        (∀ (c : Nat) (col : PivotColumn), columns[c]? = some col →
          ∃ col', pivots[c]? = some col' ∧ col'.names = col.names ∧
            col'.entries = col.entries ∧ (col.implicit = false → col' = col)) ∧
        (∀ groups, pivotGrouped.pivot.groups = some groups →
          groupsOf pivotGroupedNode = some (plainDelegates.TransformStringList groups)) ∧
        (pivotGrouped.pivot.groups = none → groupsOf pivotGroupedNode = some []) :=
  ⟨rfl, rfl, pivot_node_shape plainDelegates pivotGrouped (.root [] []) (.root [some jobA] [])
    pivotGroupedNode rfl⟩

/-! ## C18: a failing transform keeps the jobs it has registered -/

theorem multiName_iff (col : PivotColumn) :
    col.multiName = true ↔
      col.entries = [] ∧ col.pivot_enum = "" ∧ col.names.length ≠ 1 := by
  simp only [PivotColumn.multiName, Bool.and_eq_true, implicit_iff, bne_iff_ne, ne_eq]
  exact ⟨fun h => ⟨h.1.1, h.1.2, h.2⟩, fun h => ⟨⟨h.1, h.2.1⟩, h.2.2⟩⟩

/-- The columns before the first implicit column without exactly one name are the
first `k` columns, when that column is at position `k`. -/
theorem beforeMultiName_eq_take (columns : List PivotColumn) (k : Nat) (col : PivotColumn)
    (hk : columns[k]? = some col) (hcol : col.multiName = true)
    (hbefore : ∀ (j : Nat) (colj : PivotColumn), j < k → columns[j]? = some colj →
      colj.multiName = false) :
    beforeMultiName columns = columns.take k := by
  induction columns generalizing k with
  | nil => simp at hk
  | cons col0 rest ih =>
    cases k with
    | zero =>
      simp only [List.getElem?_cons_zero, Option.some.injEq] at hk
      subst hk
      simp [beforeMultiName, List.takeWhile_cons, hcol]
    | succ k =>
      have h0 : col0.multiName = false := hbefore 0 col0 (by omega) (by simp)
      simp only [List.getElem?_cons_succ] at hk
      have hrest := ih k hk fun j colj hj hcj =>
        hbefore (j + 1) colj (by omega) (by simpa using hcj)
      simp only [beforeMultiName, List.takeWhile_cons, h0, Bool.not_false, if_true,
        List.take_succ_cons, List.cons.injEq, true_and]
      exact hrest

/-- C18. `TransformPivotStatement` is not atomic on failure. Let the source, the columns
and the WITH clause be transformed, `p` being the `PivotEntryCount()` read then. If the
first implicit column without exactly one name is at position `k`, the transform throws
the error about multiple names and leaves the root queue extended by exactly the jobs
of the implicit columns at positions below `k`, in order; nothing is rolled back. If
there is no such column and the clause has neither aggregates nor unpivot names, the
transform throws the error about that and leaves the root queue extended by the jobs
of all implicit columns of the clause. -/
theorem failure_keeps_registered_jobs (d : Delegates) (stmt : PGSelectStmt)
    (t t0 : Transformer) (source : TableRef) (columns : List PivotColumn)
    (select_node : SelectNode)
    (hin : TransformPivotStatement.inputs d stmt t = (.ok (source, columns, select_node), t0)) :
    (∀ (k : Nat) (col : PivotColumn), columns[k]? = some col →
      (col.entries = [] ∧ col.pivot_enum = "" ∧ col.names.length ≠ 1) →
      (∀ (j : Nat) (colj : PivotColumn), j < k → columns[j]? = some colj →
        ¬ (colj.entries = [] ∧ colj.pivot_enum = "" ∧ colj.names.length ≠ 1)) →
      ∃ jobs : List CreatePivotEntry,
        (TransformPivotStatement d stmt t).1 =
          .error (.InternalException "PIVOT statement with multiple names in pivot entry!?") ∧
        rootEntries (TransformPivotStatement d stmt t).2 = rootEntries t0 ++ jobs.map some ∧
        jobs.map CreatePivotEntry.enum_name =
          (implicitPositions 0 (columns.take k)).map (pivotEnumName (PivotEntryCount t0)) ∧
        ∀ c, c ∈ implicitPositions 0 (columns.take k) ↔
          c < k ∧ ∃ colc, columns[c]? = some colc ∧ colc.entries = [] ∧ colc.pivot_enum = "") ∧
      ((∀ col ∈ columns, ¬ (col.entries = [] ∧ col.pivot_enum = "" ∧ col.names.length ≠ 1)) →
        stmt.pivot.aggrs = none → stmt.pivot.unpivots = none →
        ∃ jobs : List CreatePivotEntry,
          (TransformPivotStatement d stmt t).1 =
            .error (.InternalException "No unpivots and no aggrs") ∧
          rootEntries (TransformPivotStatement d stmt t).2 = rootEntries t0 ++ jobs.map some ∧
          jobs.map CreatePivotEntry.enum_name =
            (implicitPositions 0 columns).map (pivotEnumName (PivotEntryCount t0)) ∧
          jobs.length = (columns.filter PivotColumn.implicit).length) := by
  have hwhole := TransformPivotStatement_of_inputs d stmt t t0 source columns select_node hin
  constructor
  · intro k col hk hcol hbefore
    have hcol' : col.multiName = true := (multiName_iff col).mpr hcol
    have hbefore' : ∀ (j : Nat) (colj : PivotColumn), j < k → columns[j]? = some colj →
        colj.multiName = false := by
      intro j colj hj hcj
      have := hbefore j colj hj hcj
      rw [← multiName_iff] at this
      simpa using this
    have hany : columns.any PivotColumn.multiName = true :=
      List.any_eq_true.mpr ⟨col, List.getElem?_mem hk, hcol'⟩
    have htake := beforeMultiName_eq_take columns k col hk hcol' hbefore'
    rw [hwhole, hany, htake]
    refine ⟨columnJobs (PivotEntryCount t0) source (ExtractCTEsRecursive t0 []) 0
      (columns.take k), rfl, rootEntries_registerAll _ _, columnJobs_names _ _ _ _ _, ?_⟩
    intro c
    have := mem_implicitPositions 0 (columns.take k) c
    rw [Nat.zero_add] at this
    rw [this, List.getElem?_take]
    by_cases hc : c < k
    · simp only [hc, if_true, true_and]
      exact exists_congr fun colc => and_congr_right fun _ => implicit_iff colc
    · simp [hc]
  · intro hnone ha hu
    have hany : columns.any PivotColumn.multiName = false := by
      rw [List.any_eq_false]
      intro col hmem
      have := hnone col hmem
      rw [← multiName_iff] at this
      exact this
    rw [hwhole, hany]
    refine ⟨columnJobs (PivotEntryCount t0) source (ExtractCTEsRecursive t0 []) 0 columns,
      ?_, ?_, columnJobs_names _ _ _ _ _, columnJobs_length _ _ _ _ _⟩
    · simp [TransformPivotStatement.query, ha, hu]
    · simp only [TransformPivotStatement.query, ha, hu, Bool.false_eq_true, if_false]
      exact rootEntries_registerAll _ _

/-- C18, witness: `PIVOT t ON a, (b, c) USING sum(x)` on an empty queue throws at
position 1 and leaves the job of `a` in the queue; the clause on `a` with neither
aggregates nor unpivot names throws and leaves the job of `a` in the queue. -/
theorem failure_keeps_registered_jobs_witness :
    TransformPivotStatement plainDelegates pivotImplicitThenMultiName (.root [] []) =
        (.error (.InternalException "PIVOT statement with multiple names in pivot entry!?"),
          .root [some jobA] []) ∧
      TransformPivotStatement plainDelegates pivotNeither (.root [] []) =
        (.error (.InternalException "No unpivots and no aggrs"), .root [some jobA] []) ∧
      TransformPivotStatement.inputs plainDelegates pivotImplicitThenMultiName (.root [] []) =
        (.ok (TableRef.BaseTableRef "t",
          [{ names := ["a"], entries := [], pivot_enum := "" },
           { names := ["b", "c"], entries := [], pivot_enum := "" }],
          SelectNode.mk [] [] none []), .root [] []) ∧
      ∃ jobs : List CreatePivotEntry,
        (TransformPivotStatement plainDelegates pivotImplicitThenMultiName (.root [] [])).1 =
          .error (.InternalException "PIVOT statement with multiple names in pivot entry!?") ∧
        rootEntries (TransformPivotStatement plainDelegates pivotImplicitThenMultiName
          (.root [] [])).2 = rootEntries (.root [] []) ++ jobs.map some ∧
        jobs.map CreatePivotEntry.enum_name =
          (implicitPositions 0
            (([{ names := ["a"], entries := [], pivot_enum := "" },
               { names := ["b", "c"], entries := [], pivot_enum := "" }] :
                List PivotColumn).take 1)).map
            (pivotEnumName (PivotEntryCount (.root [] []))) ∧
        ∀ c, c ∈ implicitPositions 0
            (([{ names := ["a"], entries := [], pivot_enum := "" },
               { names := ["b", "c"], entries := [], pivot_enum := "" }] :
                List PivotColumn).take 1) ↔
          c < 1 ∧ ∃ colc,
            ([{ names := ["a"], entries := [], pivot_enum := "" },
              { names := ["b", "c"], entries := [], pivot_enum := "" }] :
                List PivotColumn)[c]? = some colc ∧
            colc.entries = [] ∧ colc.pivot_enum = "" :=
  ⟨rfl, rfl, rfl,
    (failure_keeps_registered_jobs plainDelegates pivotImplicitThenMultiName (.root [] [])
      (.root [] []) (TableRef.BaseTableRef "t")
      [{ names := ["a"], entries := [], pivot_enum := "" },
       { names := ["b", "c"], entries := [], pivot_enum := "" }]
      (SelectNode.mk [] [] none []) rfl).1 1
      { names := ["b", "c"], entries := [], pivot_enum := "" } rfl (by simp)
      (by
        intro j colj hj hcj
        have hj0 : j = 0 := by omega
        subst hj0
        simp only [List.getElem?_cons_zero, Option.some.injEq] at hcj
        subst hcj
        simp)⟩

/-! ## C19: the jobs of a nested PIVOT come first -/

theorem pivot_entries_rootScope (t : Transformer) :
    (rootScope t).pivot_entries = rootEntries t := by
  induction t with
  | root entries m => rfl
  | child parent entries m ih => simpa [rootScope, rootEntries] using ih

/-- The source that the transformed inputs come with is the transform of the source of
the clause. -/
theorem inputs_source (d : Delegates) (stmt : PGSelectStmt) (t ta t0 : Transformer)
    (source source' : TableRef) (columns : List PivotColumn) (select_node : SelectNode)
    (hsrc : d.TransformTableRefNode stmt.pivot.source t = (.ok source, ta))
    (hin : TransformPivotStatement.inputs d stmt t = (.ok (source', columns, select_node), t0)) :
    source' = source := by
  unfold TransformPivotStatement.inputs at hin
  simp only [hsrc] at hin
  split at hin
  · simp at hin
  · split at hin
    · simp only [Prod.mk.injEq, Except.ok.injEq] at hin
      exact hin.1.1.symm
    · split at hin
      · simp at hin
      · simp only [Prod.mk.injEq, Except.ok.injEq] at hin
        exact hin.1.1.symm

/-- C19. The clause index `p` is read after the source and the column list of the clause
have been transformed. Let `TransformPivotStatement` return a query node, and let the
transform of the source register the jobs `nested` (`k` of them, for the PIVOT clauses
nested in the source) on a root queue of length `n`, the transforms of the column list
and of the WITH clause registering nothing. Then `p = n + k`; after the loop the root
queue is the queue of before, then the nested jobs at the positions `n` to `n + k - 1`,
then the jobs of the implicit columns of the enclosing clause, named with `p = n + k`;
and in the multi-statement that `CreatePivotStatement` returns on the root (it returns,
when no slot of the queue of before was empty) the declaration of the `i`-th nested job
is at position `n + i`, before the declaration of the `j`-th job of the enclosing
clause, which is at position `n + k + j`. -/
theorem nested_jobs_come_first (d : Delegates) (stmt : PGSelectStmt) (t ta t0 t' : Transformer)
    (source source' : TableRef) (columns : List PivotColumn) (select_node : SelectNode)
    (node : QueryNode) (nested : List CreatePivotEntry)
    (h : TransformPivotStatement d stmt t = (.ok node, t'))
    (hsrc : d.TransformTableRefNode stmt.pivot.source t = (.ok source, ta))
    (hnested : rootEntries ta = rootEntries t ++ nested.map some)
    (hin : TransformPivotStatement.inputs d stmt t = (.ok (source', columns, select_node), t0))
    (hrest : rootEntries t0 = rootEntries ta) :
    source' = source ∧
      PivotEntryCount t0 = (rootEntries t).length + nested.length ∧
      ∃ t1, ∃ jobs : List CreatePivotEntry,
        (TransformPivotStatement.loop (PivotEntryCount t0) source 0 columns t0).2 = t1 ∧
        rootEntries t1 = rootEntries t ++ nested.map some ++ jobs.map some ∧
        jobs.length = (columns.filter PivotColumn.implicit).length ∧
        jobs.map CreatePivotEntry.enum_name =
          (implicitPositions 0 columns).map
            (pivotEnumName ((rootEntries t).length + nested.length)) ∧
        (∀ (i : Nat) (hi : i < nested.length),
          (rootEntries t1)[(rootEntries t).length + i]? = some (some nested[i])) ∧
        (∀ (j : Nat) (hj : j < jobs.length),
          (rootEntries t1)[(rootEntries t).length + nested.length + j]? = some (some jobs[j])) ∧
        ∀ s : SQLStatement, (∀ slot ∈ rootEntries t, slot ≠ none) →
          ∃ stmts r',
            CreatePivotStatement (rootScope t1) s = some (SQLStatement.MultiStatement stmts, r') ∧
            (∀ (i : Nat) (hi : i < nested.length),
              stmts[(rootEntries t).length + i]? = GenerateCreateEnumStmt (some nested[i])) ∧
            (∀ (j : Nat) (hj : j < jobs.length),
              stmts[(rootEntries t).length + nested.length + j]? =
                GenerateCreateEnumStmt (some jobs[j])) := by
  have hs : source' = source := inputs_source d stmt t ta t0 source source' columns select_node
    hsrc hin
  subst hs
  obtain ⟨source₂, columns₂, select₂, t0₂, hin₂, hany, -⟩ :=
    TransformPivotStatement_ok d stmt t t' node h
  rw [hin] at hin₂
  simp only [Prod.mk.injEq, Except.ok.injEq] at hin₂
  obtain ⟨⟨-, rfl, -⟩, -⟩ := hin₂
  have hq0 : rootEntries t0 = rootEntries t ++ nested.map some := by rw [hrest, hnested]
  have hp : PivotEntryCount t0 = (rootEntries t).length + nested.length := by
    rw [PivotEntryCount_eq_length, hq0, List.length_append, List.length_map]
  have hq1 : rootEntries (TransformPivotStatement.loop (PivotEntryCount t0) source' 0 columns t0).2
      = rootEntries t ++ nested.map some ++
        (columnJobs (PivotEntryCount t0) source' (ExtractCTEsRecursive t0 []) 0 columns).map
          some := by
    rw [loop_eq, beforeMultiName_eq_self columns hany, rootEntries_registerAll, hq0]
  have hnestedAt : ∀ (i : Nat) (hi : i < nested.length),
      (rootEntries (TransformPivotStatement.loop (PivotEntryCount t0) source' 0 columns t0).2)[
        (rootEntries t).length + i]? = some (some nested[i]) := by
    intro i hi
    rw [hq1, List.append_assoc, List.getElem?_append_right (Nat.le_add_right _ _),
      Nat.add_sub_cancel_left, List.getElem?_append_left (by simpa using hi),
      List.getElem?_map, List.getElem?_eq_getElem hi]
    rfl
  have hjobsAt : ∀ (j : Nat)
      (hj : j < (columnJobs (PivotEntryCount t0) source' (ExtractCTEsRecursive t0 []) 0
        columns).length),
      (rootEntries (TransformPivotStatement.loop (PivotEntryCount t0) source' 0 columns t0).2)[
        (rootEntries t).length + nested.length + j]? =
        some (some (columnJobs (PivotEntryCount t0) source' (ExtractCTEsRecursive t0 []) 0
          columns)[j]) := by
    intro j hj
    have hlen : (rootEntries t ++ nested.map some).length =
        (rootEntries t).length + nested.length := by simp
    rw [hq1, List.getElem?_append_right (by omega), hlen, Nat.add_sub_cancel_left,
      List.getElem?_map, List.getElem?_eq_getElem hj]
    rfl
  refine ⟨rfl, hp, _, columnJobs (PivotEntryCount t0) source' (ExtractCTEsRecursive t0 []) 0
    columns, rfl, hq1, columnJobs_length _ _ _ _ _, ?_, hnestedAt, hjobsAt, ?_⟩
  · rw [columnJobs_names, hp]
  · intro s hfull
    have hfull1 : ∀ slot ∈ (rootScope (TransformPivotStatement.loop (PivotEntryCount t0) source'
        0 columns t0).2).pivot_entries, slot ≠ none := by
      rw [pivot_entries_rootScope, hq1]
      intro slot hslot
      rcases List.mem_append.mp hslot with hs | hs
      · rcases List.mem_append.mp hs with hs | hs
        · exact hfull slot hs
        · obtain ⟨job, -, rfl⟩ := List.mem_map.mp hs
          simp
      · obtain ⟨job, -, rfl⟩ := List.mem_map.mp hs
        simp
    obtain ⟨stmts, h1, h2, h3⟩ := CreatePivotStatement_total _ s hfull1
    rw [pivot_entries_rootScope] at h2 h3
    have hget : ∀ (idx : Nat) (slot : Option CreatePivotEntry),
        (rootEntries (TransformPivotStatement.loop (PivotEntryCount t0) source' 0 columns
          t0).2)[idx]? = some slot → (stmts ++ [s])[idx]? = GenerateCreateEnumStmt slot := by
      intro idx slot hidx
      have hlt : idx < stmts.length := by
        rw [h2]
        by_contra hge
        rw [List.getElem?_eq_none (by omega)] at hidx
        simp at hidx
      rw [List.getElem?_append_left hlt]
      exact h3 idx slot hidx
    exact ⟨stmts ++ [s], _, h1, fun i hi => hget _ _ (hnestedAt i hi),
      fun j hj => hget _ _ (hjobsAt j hj)⟩

/-- C19, witness: `PIVOT (PIVOT u ON k USING sum(y)) ON a USING sum(x)` on an empty
queue: the nested clause registers `__pivot_enum_0_0`, the enclosing clause is named
with `p = 1` and registers `__pivot_enum_1_0` after it. -/
theorem nested_jobs_come_first_witness :
    TransformPivotStatement nestedDelegates pivotNested (.root [] []) =
        (.ok pivotNestedNode, .root [some jobK, some jobNestedA] []) ∧
      nestedDelegates.TransformTableRefNode pivotNested.pivot.source (.root [] []) =
        (.ok pivotNestedSource, .root [some jobK] []) ∧
      rootEntries (.root [some jobK] []) = rootEntries (.root [] []) ++ [jobK].map some ∧
      TransformPivotStatement.inputs nestedDelegates pivotNested (.root [] []) =
        (.ok (pivotNestedSource, [{ names := ["a"], entries := [], pivot_enum := "" }],
          SelectNode.mk [] [] none []), .root [some jobK] []) ∧
      enumNames (rootEntries (.root [some jobK, some jobNestedA] [])) =
        ["__pivot_enum_0_0", "__pivot_enum_1_0"] ∧
      CreatePivotStatement (.root [some jobK, some jobNestedA] [])
          (SQLStatement.SelectStatement { node := pivotNestedNode }) =
        some (SQLStatement.MultiStatement
          [enumDeclaration "__pivot_enum_0_0" [] (TableRef.BaseTableRef "u") "k",
           enumDeclaration "__pivot_enum_1_0" [] pivotNestedSource "a",
           SQLStatement.SelectStatement { node := pivotNestedNode }],
          .root [none, none] []) ∧
      PivotEntryCount (.root [some jobK] []) =
        (rootEntries (.root [] [])).length + [jobK].length :=
  ⟨rfl, rfl, rfl, rfl, rfl, rfl,
    (nested_jobs_come_first nestedDelegates pivotNested (.root [] []) (.root [some jobK] [])
      (.root [some jobK] []) (.root [some jobK, some jobNestedA] []) pivotNestedSource
      pivotNestedSource [{ names := ["a"], entries := [], pivot_enum := "" }]
      (SelectNode.mk [] [] none []) pivotNestedNode [jobK] rfl rfl rfl rfl rfl).2.1⟩

end duckdb
